import Mathlib

/-!
Verification of the core tool-resolution and invocation layer of the
mcp-toolbox-sdk-go repository, as a shallow embedding in Lean.

Conventions of the embedding:
* Go dynamic values (`any` / `interface`) are modelled by the inductive
  `GoValue`; the payload of a float is restricted to an integer-valued
  sample since the validation code only ever inspects the dynamic type
  tag, never the numeric payload.
* Go maps are modelled as association lists iterated in list order;
  theorems about map-derived data are stated via membership so they do
  not depend on Go map iteration order.
* Go slices that the code mutates or deep-copies are modelled as
  references into an explicit `Store`; everything else is a pure value.
* Fallible Go functions returning `error` are modelled with `Except`
  carrying structured error values that mirror the fmt.Errorf messages.
-/

set_option autoImplicit false

/-- A dynamic Go value as seen through type assertions and reflect.Kind.
`vnil` is the nil interface, `varr` a slice, and `vother` any dynamic type
that is none of the explicitly handled ones (for example a map). -/
inductive GoValue where
  | vnil
  | vstr (s : String)
  | vint (n : Int)
  | vfloat (val : Int)
  | vbool (b : Bool)
  | varr (elems : List GoValue)
  | vother (tyName : String)

/-- Schema for a tool parameter, from core/protocol.go (`Parameter`, also
called `ParameterSchema` in later revisions; the extra `required` flag of
the latter is carried along and ignored by validation). -/
inductive Parameter where
  | mk (name : String) (ptype : String) (description : String)
      (required : Bool) (authSources : List String) (items : Option Parameter)

def Parameter.name : Parameter → String
  | .mk n _ _ _ _ _ => n

def Parameter.ptype : Parameter → String
  | .mk _ t _ _ _ _ => t

def Parameter.authSources : Parameter → List String
  | .mk _ _ _ _ a _ => a

def Parameter.items : Parameter → Option Parameter
  | .mk _ _ _ _ _ i => i

/-- Structured rendering of the fmt.Errorf failures produced by
`Parameter.validateType` in core/protocol.go. -/
inductive VErr where
  | nilValue (param : String)
  | typeMismatch (param : String) (expected : String)
  | missingItems (param : String)
  | atIndex (param : String) (i : Nat) (inner : VErr)
  | unknownType (ty : String) (param : String)
  deriving DecidableEq, Repr

mutual

/-- `Parameter.validateType` from core/protocol.go: manual type checking of a
dynamic value against the declared parameter type. -/
def validateType (p : Parameter) (v : GoValue) : Except VErr Unit :=
  match p with
  | .mk pname ptype _ _ _ pitems =>
    match v with
    | .vnil => .error (.nilValue pname)
    | _ =>
      match ptype with
      | "string" =>
        match v with
        | .vstr _ => .ok ()
        | _ => .error (.typeMismatch pname "string")
      | "integer" =>
        match v with
        | .vint _ => .ok ()
        | _ => .error (.typeMismatch pname "integer")
      | "float" =>
        match v with
        | .vfloat _ => .ok ()
        | _ => .error (.typeMismatch pname "float")
      | "boolean" =>
        match v with
        | .vbool _ => .ok ()
        | _ => .error (.typeMismatch pname "boolean")
      | "array" =>
        match v with
        | .varr xs =>
          match pitems with
          | none => .error (.missingItems pname)
          | some q => validateItems pname q 0 xs
        | _ => .error (.typeMismatch pname "array")
      | other => .error (.unknownType other pname)
termination_by (sizeOf p, 0)

/-- The element loop of the `array` case of `validateType`: each element is
checked recursively against the items schema, the failing index is embedded
in the error. -/
def validateItems (pname : String) (q : Parameter) (i : Nat) (xs : List GoValue) :
    Except VErr Unit :=
  match xs with
  | [] => .ok ()
  | x :: rest =>
    match validateType q x with
    | .error e => .error (.atIndex pname i e)
    | .ok () => validateItems pname q (i + 1) rest
termination_by (sizeOf q, 1 + xs.length)

end

mutual

/-- Modelled from the spec (section 4.5a): the table of type/value pairs for
which validation is supposed to succeed. Used only to compare `validateType`
against the specified table. -/
def specTypeMatches (p : Parameter) (v : GoValue) : Bool :=
  match p with
  | .mk _ ptype _ _ _ pitems =>
    match v with
    | .vnil => false
    | _ =>
      match ptype with
      | "string" =>
        match v with
        | .vstr _ => true
        | _ => false
      | "integer" =>
        match v with
        | .vint _ => true
        | _ => false
      | "float" =>
        match v with
        | .vfloat _ => true
        | _ => false
      | "boolean" =>
        match v with
        | .vbool _ => true
        | _ => false
      | "array" =>
        match v with
        | .varr xs =>
          match pitems with
          | none => false
          | some q => specAllItems q xs
        | _ => false
      | _ => false
termination_by (sizeOf p, 0)

/-- Modelled from the spec: every element of an array value must match the
items schema. -/
def specAllItems (q : Parameter) (xs : List GoValue) : Bool :=
  match xs with
  | [] => true
  | x :: rest => specTypeMatches q x && specAllItems q rest
termination_by (sizeOf q, 1 + xs.length)

end

/-! ## Handshake core (core/transport/mcp: BaseMcpTransport.EnsureInitialized)

The sync.Once-guarded state of a transport instance is modelled as an
explicit state record and EnsureInitialized as a state transition.  The
ghost field `attempts` counts executed handshake attempts, and the hook is
allowed to produce a different outcome on each hypothetical attempt, so the
theorems show the cached outcome is replayed rather than recomputed.  The
concurrent single-flight guarantee of sync.Once is modelled as a sequence
of calls observing one shared state. -/

/-- The initialization state of a `BaseMcpTransport`: the consumed flag of
`initOnce`, the cached `initErr` (`none` is success), and a ghost counter of
handshake attempts actually executed. -/
structure BaseMcpTransport where
  initDone : Bool
  initErr : Option String
  attempts : Nat

/-- A fresh transport: handshake never attempted. -/
def BaseMcpTransport.fresh : BaseMcpTransport :=
  { initDone := false, initErr := none, attempts := 0 }

/-- `EnsureInitialized` from core/transport/mcp: run the handshake hook under
`initOnce.Do`, caching its outcome; replay the cached outcome on every later
call. `hook k` is the outcome the handshake would produce on its `k`-th
execution. -/
def EnsureInitialized (hook : Nat → Option String) (b : BaseMcpTransport) :
    BaseMcpTransport × Option String :=
  if b.initDone then (b, b.initErr)
  else
    let r := hook b.attempts
    ({ initDone := true, initErr := r, attempts := b.attempts + 1 }, r)

/-- A sequence of `n` calls to `EnsureInitialized` on the same instance,
returning the final state and the list of outcomes observed by the callers. -/
def ensureCalls (hook : Nat → Option String) (b : BaseMcpTransport) :
    Nat → BaseMcpTransport × List (Option String)
  | 0 => (b, [])
  | n + 1 =>
    let (b1, r) := EnsureInitialized hook b
    let (b2, rs) := ensureCalls hook b1 n
    (b2, r :: rs)

/-! ## Auth resolver (core/utils.go) -/

/-- `isServiceProvided` from core/utils.go: whether any required service is
among the provided token-source names. -/
def isServiceProvided (requiredServices : List String)
    (providedTokenSources : List String) : Bool :=
  requiredServices.any (fun s => providedTokenSources.contains s)

/-- Insertion into the `usedServices` set (a Go map used as a set): adding a
member again is a no-op. -/
def insertUsed (used : List String) (s : String) : List String :=
  if used.contains s then used else used ++ [s]

/-- The authn half of `identifyAuthRequirements`: for each required authn
parameter, drop it if one of its services is provided (recording every
provided service of its list as used), otherwise keep it as still required. -/
def identifyAuthnLoop (authTokenSources : List String) :
    List (String × List String) → List (String × List String) × List String →
    List (String × List String) × List String
  | [], acc => acc
  | (param, services) :: rest, (reqd, used) =>
    if isServiceProvided services authTokenSources then
      let used1 := services.foldl
        (fun u service => if authTokenSources.contains service then insertUsed u service else u)
        used
      identifyAuthnLoop authTokenSources rest (reqd, used1)
    else
      identifyAuthnLoop authTokenSources rest (reqd ++ [(param, services)], used)

/-- The authz half of `identifyAuthRequirements`: scan all required tokens,
marking the requirement met and the service used on every match. -/
def identifyAuthzLoop (authTokenSources : List String) :
    List String → Bool × List String → Bool × List String
  | [], acc => acc
  | reqToken :: rest, (isAuthzMet, used) =>
    if authTokenSources.contains reqToken then
      identifyAuthzLoop authTokenSources rest (true, insertUsed used reqToken)
    else
      identifyAuthzLoop authTokenSources rest (isAuthzMet, used)

/-- `identifyAuthRequirements` from core/utils.go. Maps are association
lists; `authTokenSources` is the list of available service names (only key
membership of the Go map is ever consulted). -/
def identifyAuthRequirements (reqAuthnParams : List (String × List String))
    (reqAuthzTokens : List String) (authTokenSources : List String) :
    List (String × List String) × List String × List String :=
  let authnRes := identifyAuthnLoop authTokenSources reqAuthnParams ([], [])
  let authzRes := identifyAuthzLoop authTokenSources reqAuthzTokens (false, authnRes.2)
  let requiredAuthzTokens := if authzRes.1 then [] else reqAuthzTokens
  (authnRes.1, requiredAuthzTokens, authzRes.2)

/-- `findUnusedKeys` from core/utils.go, with the provided and used key sets
as lists: the provided keys that were not used. -/
def findUnusedKeys (provided used : List String) : List String :=
  provided.filter (fun k => ! used.contains k)

/-! ## Association-list operations standing for Go map operations -/

/-- The key list of an association list (a Go map's key set). -/
def alKeys {α : Type} (l : List (String × α)) : List String :=
  l.map Prod.fst

/-- Key membership test of a Go map. -/
def alHasKey {α : Type} (l : List (String × α)) (k : String) : Bool :=
  (alKeys l).contains k

/-- Go map assignment `m[k] = v`: replace the binding if the key is present,
append it otherwise. -/
def alSet {α : Type} : List (String × α) → String → α → List (String × α)
  | [], k, v => [(k, v)]
  | (k0, v0) :: rest, k, v =>
    if k0 = k then (k, v) :: rest else (k0, v0) :: alSet rest k v

/-! ## Store of slice cells

Go slices held in `map[string]any` values are mutable and aliasable, so
slice-valued bound parameters are modelled as references into an explicit
store of cells; every other collection the code copies with make/copy or
maps.Copy is a pure value here, whose copy is the value itself. -/

/-- The arena of slice cells; a reference is an index into `cells`. -/
structure Store where
  cells : List (List GoValue)

/-- A value stored under a key of a `map[string]any`: either a non-slice
value (copied directly by the clone) or a reference to a slice cell. -/
inductive BoundVal where
  | scalar (v : GoValue)
  | sliceRef (r : Nat)

/-- Reading a bound value through the store. -/
def resolveBound (st : Store) : BoundVal → GoValue
  | .scalar v => v
  | .sliceRef r => .varr (st.cells.getD r [])

/-- The observable contents of a bound-parameter map: every value read
through the store. -/
def boundView (st : Store) (l : List (String × BoundVal)) :
    List (String × GoValue) :=
  l.map (fun kv => (kv.1, resolveBound st kv.2))

/-- The slice cells reachable from a bound-parameter map. -/
def sliceRefsOf (l : List (String × BoundVal)) : List Nat :=
  l.filterMap (fun kv =>
    match kv.2 with
    | .sliceRef r => some r
    | .scalar _ => none)

/-- Well-formedness: every reachable slice reference points into the store. -/
def WFBound (st : Store) (l : List (String × BoundVal)) : Prop :=
  ∀ r ∈ sliceRefsOf l, r < st.cells.length

/-- In-place mutation of one slice cell of the store. -/
def Store.write (st : Store) (r : Nat) (xs : List GoValue) : Store :=
  ⟨st.cells.set r xs⟩

/-! ## Tool descriptor (core/tool.go) -/

/-- `ToolboxTool` from core/tool.go. Token-source maps are represented by
their key lists, since only key membership is ever consulted by the logic
under verification; `httpClientSet` stands for `httpClient != nil`. -/
structure ToolboxTool where
  name : String
  description : String
  parameters : List Parameter
  invocationURL : String
  httpClientSet : Bool
  authTokenSources : List String
  boundParams : List (String × BoundVal)
  requiredAuthnParams : List (String × List String)
  requiredAuthzTokens : List String
  clientHeaderSources : List String

/-- The boundParams copy loop of `cloneToolboxTool`: non-slice values are
copied directly, slice values get a freshly allocated cell holding an
element-wise copy of the original slice. -/
def cloneBoundParams (st : Store) :
    List (String × BoundVal) → Store × List (String × BoundVal)
  | [] => (st, [])
  | (k, .scalar v) :: rest =>
    let (st1, bs) := cloneBoundParams st rest
    (st1, (k, .scalar v) :: bs)
  | (k, .sliceRef r) :: rest =>
    let contents := st.cells.getD r []
    let newRef := st.cells.length
    let (st1, bs) := cloneBoundParams ⟨st.cells ++ [contents]⟩ rest
    (st1, (k, .sliceRef newRef) :: bs)

/-- `cloneToolboxTool` from core/tool.go: a deep copy of the descriptor.
The make/copy and maps.Copy calls of the Go code produce fresh collections
with equal contents, which in this value model are the contents themselves;
the reflect-based slice copy for bound parameters allocates fresh cells. -/
def cloneToolboxTool (st : Store) (tt : ToolboxTool) : Store × ToolboxTool :=
  let (st1, newBound) := cloneBoundParams st tt.boundParams
  (st1,
    { name := tt.name
      description := tt.description
      parameters := tt.parameters
      invocationURL := tt.invocationURL
      httpClientSet := tt.httpClientSet
      authTokenSources := tt.authTokenSources
      boundParams := newBound
      requiredAuthnParams := tt.requiredAuthnParams.map (fun pr => (pr.1, pr.2))
      requiredAuthzTokens := tt.requiredAuthzTokens
      clientHeaderSources := tt.clientHeaderSources })

/-! ## Tool configuration and derivation (core/options.go, core/tool.go) -/

/-- `ToolConfig` from core/options.go, after all options have been applied;
`nameSet` and `strictSet` are the markers recording that the corresponding
option appeared. Token sources are represented by their names. -/
structure ToolConfig where
  authTokenSources : List String
  boundParams : List (String × BoundVal)
  name : String
  strict : Bool
  nameSet : Bool
  strictSet : Bool

/-- Structured rendering of the failures of `ToolboxTool.ToolFrom`. -/
inductive ToolFromErr where
  | inapplicableName
  | inapplicableStrict
  | overrideAuthSource (name : String)
  | unknownParameter (name : String)
  | overrideBoundParam (name : String)
  deriving DecidableEq, Repr

/-- The AuthTokenSources merge loop of `ToolFrom`: adding a service name that
already exists is an override failure. -/
def mergeAuthSources (existing : List String) :
    List String → Except ToolFromErr (List String)
  | [] => .ok existing
  | name :: rest =>
    if existing.contains name then .error (.overrideAuthSource name)
    else mergeAuthSources (existing ++ [name]) rest

/-- The BoundParams merge loop of `ToolFrom`: a name is bindable only if it
is among the parent's unbound parameters; a name bound on the parent is an
override failure and a name in neither place is an unknown parameter. -/
def mergeBoundParams (parent : ToolboxTool)
    (acc : List (String × BoundVal)) :
    List (String × BoundVal) → Except ToolFromErr (List (String × BoundVal))
  | [] => .ok acc
  | (name, val) :: rest =>
    if (parent.parameters.map Parameter.name).contains name then
      mergeBoundParams parent (alSet acc name val) rest
    else if alHasKey parent.boundParams name then
      .error (.overrideBoundParam name)
    else
      .error (.unknownParameter name)

/-- `ToolboxTool.ToolFrom` from core/tool.go, applied to an already-built
configuration: reject inapplicable options, clone the parent, merge new auth
sources and bindings write-once, and recompute the unbound parameter list. -/
def ToolFrom (st : Store) (tt : ToolboxTool) (config : ToolConfig) :
    Except ToolFromErr (Store × ToolboxTool) :=
  if config.nameSet then .error .inapplicableName
  else if config.strictSet then .error .inapplicableStrict
  else
    let (st1, newTt) := cloneToolboxTool st tt
    match mergeAuthSources newTt.authTokenSources config.authTokenSources with
    | .error e => .error e
    | .ok mergedAuth =>
      match mergeBoundParams tt newTt.boundParams config.boundParams with
      | .error e => .error e
      | .ok mergedBound =>
        let newParams := tt.parameters.filter
          (fun p => ! alHasKey mergedBound p.name)
        .ok (st1,
          { newTt with
              authTokenSources := mergedAuth
              boundParams := mergedBound
              parameters := newParams })

/-! ## Invocation (core/tool.go: Invoke, validateAndBuildPayload) -/

/-- Structured rendering of the failures of `validateAndBuildPayload`. -/
inductive PayloadErr where
  | unexpectedParameter (k : String)
  | typeError (e : VErr)
  deriving DecidableEq, Repr

/-- The input-validation loop of `validateAndBuildPayload`: every supplied
key must be an unbound schema parameter or a bound name; unbound values are
type checked. `paramSchema` is the name-indexed schema map. -/
def validateInputLoop (paramSchema : List (String × Parameter))
    (boundParams : List (String × BoundVal)) :
    List (String × GoValue) → Except PayloadErr Unit
  | [] => .ok ()
  | (key, value) :: rest =>
    match (paramSchema.lookup key : Option Parameter) with
    | some param =>
      match validateType param value with
      | .error e => .error (.typeError e)
      | .ok () => validateInputLoop paramSchema boundParams rest
    | none =>
      if alHasKey boundParams key then
        validateInputLoop paramSchema boundParams rest
      else
        .error (.unexpectedParameter key)

/-- `validateAndBuildPayload` from core/tool.go: validate the caller input
against the unbound schema, then merge schema-keyed input with the resolved
bound parameters (bound values win, since a bound key is no longer in the
schema). Zero-argument provider values are modelled as already resolved. -/
def validateAndBuildPayload (st : Store) (tt : ToolboxTool)
    (input : List (String × GoValue)) :
    Except PayloadErr (List (String × GoValue)) :=
  let paramSchema := tt.parameters.foldl
    (fun acc p => alSet acc p.name p) []
  match validateInputLoop paramSchema tt.boundParams input with
  | .error e => .error e
  | .ok () =>
    let fromInput := input.foldl
      (fun acc kv => if alHasKey paramSchema kv.1 then alSet acc kv.1 kv.2 else acc) []
    let finalPayload := tt.boundParams.foldl
      (fun acc kv => alSet acc kv.1 (resolveBound st kv.2)) fromInput
    .ok finalPayload

/-- The outcome of the pre-network part of `ToolboxTool.Invoke`: either one
of the local failures, or the request payload that would be sent over HTTP. -/
inductive InvokeOutcome where
  | errClientNotSet
  | errPermission (service : String)
  | errPayload (e : PayloadErr)
  | request (payload : List (String × GoValue))

/-- The set of auth services required by the outstanding authn and authz
requirements of a descriptor (the `reqAuthServices` set of `Invoke`). -/
def requiredAuthServices (tt : ToolboxTool) : List String :=
  (tt.requiredAuthnParams.foldl (fun acc pr => acc ++ pr.2) []) ++
    tt.requiredAuthzTokens

/-- `ToolboxTool.Invoke` from core/tool.go up to the point where the HTTP
request is issued: nil-client check, then the permission check over all
outstanding auth requirements, then payload validation and assembly. -/
def Invoke (st : Store) (tt : ToolboxTool) (input : List (String × GoValue)) :
    InvokeOutcome :=
  if ¬ tt.httpClientSet then .errClientNotSet
  else
    let permission :=
      if tt.requiredAuthnParams ≠ [] ∨ tt.requiredAuthzTokens ≠ [] then
        (requiredAuthServices tt).find?
          (fun service => ! tt.authTokenSources.contains service)
      else none
    match permission with
    | some service => .errPermission service
    | none =>
      match validateAndBuildPayload st tt input with
      | .error e => .errPayload e
      | .ok payload => .request payload

/-! ## Client orchestrator (ToolboxClient: newToolboxTool, LoadTool,
LoadToolset) -/

/-- Schema for a tool, from core/protocol.go. -/
structure ToolSchema where
  description : String
  parameters : List Parameter
  authRequired : List String

/-- Structured rendering of the failures of the client build/validation
path. -/
inductive ClientErr where
  | unknownBoundParameter (param : String) (tool : String)
  | toolValidationFailed (tool : String) (unusedAuth unusedBound : List String)
  | toolsetValidationFailed (toolset : String) (unusedAuth unusedBound : List String)
  deriving DecidableEq, Repr

/-- The parameter triage loop of `ToolboxClient.newToolboxTool`: a parameter
with declared auth sources becomes an authn requirement, otherwise a
configured binding is applied, otherwise the parameter stays unbound. -/
def triageParams (config : ToolConfig) :
    List Parameter →
    List Parameter × List (String × List String) × List String ×
      List (String × BoundVal) →
    List Parameter × List (String × List String) × List String ×
      List (String × BoundVal)
  | [], acc => acc
  | p :: rest, (finalParameters, authnParams, paramSchema, localBoundParams) =>
    let paramSchema1 := insertUsed paramSchema p.name
    if p.authSources ≠ [] then
      triageParams config rest
        (finalParameters, alSet authnParams p.name p.authSources, paramSchema1,
          localBoundParams)
    else
      match (config.boundParams.lookup p.name : Option BoundVal) with
      | some val =>
        triageParams config rest
          (finalParameters, authnParams, paramSchema1,
            alSet localBoundParams p.name val)
      | none =>
        triageParams config rest
          (finalParameters ++ [p], authnParams, paramSchema1, localBoundParams)

/-- `ToolboxClient.newToolboxTool`: build one descriptor from a schema and
the merged configuration, returning it with the auth keys and bound keys it
consumed; in strict mode a configured binding naming no schema parameter is
a failure. -/
def newToolboxTool (baseURL : String) (clientHeaderSources : List String)
    (name : String) (schema : ToolSchema) (finalConfig : ToolConfig)
    (isStrict : Bool) :
    Except ClientErr (ToolboxTool × List String × List String) :=
  let (finalParameters, authnParams, paramSchema, localBoundParams) :=
    triageParams finalConfig schema.parameters ([], [], [], [])
  match
    (if isStrict then
      (alKeys finalConfig.boundParams).find? (fun k => ! paramSchema.contains k)
    else none) with
  | some boundName => .error (.unknownBoundParameter boundName name)
  | none =>
    let usedBoundKeys := alKeys localBoundParams
    let (remainingAuthnParams, remainingAuthzTokens, usedAuthKeys) :=
      identifyAuthRequirements authnParams schema.authRequired
        finalConfig.authTokenSources
    .ok
      ({ name := name
         description := schema.description
         parameters := finalParameters
         invocationURL := baseURL ++ "/api/tool/" ++ name ++ "/invoke"
         httpClientSet := true
         authTokenSources := finalConfig.authTokenSources
         boundParams := localBoundParams
         requiredAuthnParams := remainingAuthnParams
         requiredAuthzTokens := remainingAuthzTokens
         clientHeaderSources := clientHeaderSources },
        usedAuthKeys, usedBoundKeys)

/-- The validation tail of `ToolboxClient.LoadTool` after the manifest fetch:
build the one descriptor strictly, then require that every supplied auth
key and bound key was consumed by it. -/
def loadToolValidation (baseURL : String) (clientHeaderSources : List String)
    (name : String) (schema : ToolSchema) (finalConfig : ToolConfig) :
    Except ClientErr ToolboxTool :=
  match newToolboxTool baseURL clientHeaderSources name schema finalConfig true with
  | .error e => .error e
  | .ok (tool, usedAuthKeys, usedBoundKeys) =>
    let unusedAuth := findUnusedKeys finalConfig.authTokenSources usedAuthKeys
    let unusedBound := findUnusedKeys (alKeys finalConfig.boundParams) usedBoundKeys
    if unusedAuth ≠ [] ∨ unusedBound ≠ [] then
      .error (.toolValidationFailed name unusedAuth unusedBound)
    else
      .ok tool

/-- The per-tool loop of `ToolboxClient.LoadToolset`: in strict mode each
tool is validated individually and the first failure aborts; in lenient mode
the consumed keys are accumulated across tools. -/
def loadToolsetLoop (baseURL : String) (clientHeaderSources : List String)
    (finalConfig : ToolConfig) :
    List (String × ToolSchema) → List ToolboxTool → List String → List String →
    Except ClientErr (List ToolboxTool × List String × List String)
  | [], tools, overallUsedAuth, overallUsedBound =>
    .ok (tools, overallUsedAuth, overallUsedBound)
  | (toolName, schema) :: rest, tools, overallUsedAuth, overallUsedBound =>
    match newToolboxTool baseURL clientHeaderSources toolName schema finalConfig
        finalConfig.strict with
    | .error e => .error e
    | .ok (tool, usedAuthKeys, usedBoundKeys) =>
      if finalConfig.strict then
        let unusedAuth := findUnusedKeys finalConfig.authTokenSources usedAuthKeys
        let unusedBound :=
          findUnusedKeys (alKeys finalConfig.boundParams) usedBoundKeys
        if unusedAuth ≠ [] ∨ unusedBound ≠ [] then
          .error (.toolValidationFailed toolName unusedAuth unusedBound)
        else
          loadToolsetLoop baseURL clientHeaderSources finalConfig rest
            (tools ++ [tool]) overallUsedAuth overallUsedBound
      else
        loadToolsetLoop baseURL clientHeaderSources finalConfig rest
          (tools ++ [tool]) (usedAuthKeys.foldl insertUsed overallUsedAuth)
          (usedBoundKeys.foldl insertUsed overallUsedBound)

/-- The validation tail of `ToolboxClient.LoadToolset` after the manifest
fetch: run the per-tool loop, then in lenient mode require that every
supplied key was consumed by at least one tool of the set. -/
def loadToolsetValidation (baseURL : String) (clientHeaderSources : List String)
    (toolsetName : String) (manifestTools : List (String × ToolSchema))
    (finalConfig : ToolConfig) : Except ClientErr (List ToolboxTool) :=
  match loadToolsetLoop baseURL clientHeaderSources finalConfig manifestTools
      [] [] [] with
  | .error e => .error e
  | .ok (tools, overallUsedAuth, overallUsedBound) =>
    if finalConfig.strict then .ok tools
    else
      let unusedAuth := findUnusedKeys finalConfig.authTokenSources overallUsedAuth
      let unusedBound :=
        findUnusedKeys (alKeys finalConfig.boundParams) overallUsedBound
      if unusedAuth ≠ [] ∨ unusedBound ≠ [] then
        let displayName := if toolsetName = "" then "default" else toolsetName
        .error (.toolsetValidationFailed displayName unusedAuth unusedBound)
      else
        .ok tools

/-- Whether the tool `tname`/`schema`, built non-strictly from `config`,
consumes the provided auth key `k`; used to state the lenient LoadToolset
accumulation property. -/
def toolConsumesAuth (baseURL : String) (clientHeaderSources : List String)
    (config : ToolConfig) (tname : String) (schema : ToolSchema)
    (k : String) : Prop :=
  ∃ t ua ub,
    newToolboxTool baseURL clientHeaderSources tname schema config false =
      .ok (t, ua, ub) ∧ k ∈ ua

/-- Whether the tool `tname`/`schema`, built non-strictly from `config`,
consumes the provided bound-parameter key `k`. -/
def toolConsumesBound (baseURL : String) (clientHeaderSources : List String)
    (config : ToolConfig) (tname : String) (schema : ToolSchema)
    (k : String) : Prop :=
  ∃ t ua ub,
    newToolboxTool baseURL clientHeaderSources tname schema config false =
      .ok (t, ua, ub) ∧ k ∈ ub

/-- Whether one tool passes the per-tool validation of strict LoadToolset:
it builds strictly and individually consumes every supplied auth key and
bound-parameter key. -/
def strictToolPasses (baseURL : String) (clientHeaderSources : List String)
    (config : ToolConfig) (tname : String) (schema : ToolSchema) : Prop :=
  ∃ t ua ub,
    newToolboxTool baseURL clientHeaderSources tname schema config true =
      .ok (t, ua, ub) ∧
    findUnusedKeys config.authTokenSources ua = [] ∧
    findUnusedKeys (alKeys config.boundParams) ub = []

/-- The tool (or toolset) name a client failure message is about. -/
def clientErrToolName : ClientErr → String
  | .unknownBoundParameter _ tool => tool
  | .toolValidationFailed tool _ _ => tool
  | .toolsetValidationFailed toolset _ _ => toolset

/-! ## MCP transport v2025-03-26 (core/transport/mcp/v20250326) -/

/-- One content block of a `tools/call` result (`TextContent` in
types.go: a kind tag and the text payload). -/
structure TextContent where
  type : String
  text : String
  deriving DecidableEq, Repr

/-- `CallToolResult` from types.go. -/
structure CallToolResult where
  content : List TextContent
  isError : Bool
  deriving DecidableEq, Repr

/-- The result-processing tail of `McpTransport.InvokeTool`, applied to a
`tools/call` result that arrived intact: error flag check, concatenation of
the text blocks via the string builder loop, and the empty-output fallback. -/
def processCallToolResult (result : CallToolResult) : Except String String :=
  if result.isError then .error "tool execution resulted in error"
  else
    let output := result.content.foldl
      (fun sb content => if content.type = "text" then sb ++ content.text else sb) ""
    if output = "" then .ok "null" else .ok output

/-- The JSON shape of a request's `params` field after marshalling: a JSON
object (a Go struct or map) or anything that does not decode into
`map[string]any`. -/
inductive RPCParams where
  | obj (fields : List (String × GoValue))
  | nonObj

/-- The key list of a params object (empty for a non-object). -/
def RPCParams.fieldKeys : RPCParams → List String
  | .obj fields => alKeys fields
  | .nonObj => []

/-- The session-id injection of `McpTransport.sendRequest` (v2025-03-26):
for a non-initialize method with a session id present, re-encode the params
and set the `Mcp-Session-Id` field; params that do not decode to a map are
sent unchanged. -/
def injectSessionIdRequest (sessionId : String) (method : String)
    (params : RPCParams) : RPCParams :=
  if method ≠ "initialize" ∧ sessionId ≠ "" then
    match params with
    | .obj fields => .obj (alSet fields "Mcp-Session-Id" (.vstr sessionId))
    | .nonObj => .nonObj
  else params

/-- The session-id injection of `McpTransport.sendNotification`
(v2025-03-26): same as the request path but with no method guard. -/
def injectSessionIdNotification (sessionId : String) (params : RPCParams) :
    RPCParams :=
  if sessionId ≠ "" then
    match params with
    | .obj fields => .obj (alSet fields "Mcp-Session-Id" (.vstr sessionId))
    | .nonObj => .nonObj
  else params

/-- The session-bearing state of a v2025-03-26 `McpTransport`. -/
structure McpTransport where
  protocolVersion : String
  sessionId : String
  serverVersion : String

/-- An outgoing JSON-RPC message as observable on the wire: request or
notification, method, and final params. -/
structure RPCMessage where
  isNotification : Bool
  method : String
  params : RPCParams

/-- `McpTransport.sendRequest` (v2025-03-26), reduced to the message it
emits. -/
def sendRequestMsg (t : McpTransport) (method : String) (params : RPCParams) :
    RPCMessage :=
  { isNotification := false
    method := method
    params := injectSessionIdRequest t.sessionId method params }

/-- `McpTransport.sendNotification` (v2025-03-26), reduced to the message it
emits. -/
def sendNotificationMsg (t : McpTransport) (method : String)
    (params : RPCParams) : RPCMessage :=
  { isNotification := true
    method := method
    params := injectSessionIdNotification t.sessionId params }

/-- `InitializeResult` from types.go (v2025-03-26), reduced to the fields
the handshake inspects; `capabilitiesToolsPresent` is `Capabilities.Tools
!= nil`. -/
structure InitializeResult where
  protocolVersion : String
  capabilitiesToolsPresent : Bool
  serverVersion : String
  mcpSessionId : String

/-- The params of the `initialize` request built by `initializeSession`. -/
def initializeParams (t : McpTransport) : RPCParams :=
  .obj [("protocolVersion", .vstr t.protocolVersion),
        ("capabilities", .vother "ClientCapabilities"),
        ("clientInfo", .vother "Implementation")]

/-- `McpTransport.initializeSession` (v2025-03-26), with the server reply to
the initialize request given as `result`: version check, capabilities check,
session-id extraction, then the confirming initialized notification. Returns
the messages put on the wire, the final transport state and the outcome. -/
def initializeSession (t : McpTransport) (result : InitializeResult) :
    List RPCMessage × McpTransport × Option String :=
  let msg1 := sendRequestMsg t "initialize" (initializeParams t)
  if result.protocolVersion ≠ t.protocolVersion then
    ([msg1], t, some "MCP version mismatch")
  else if ¬ result.capabilitiesToolsPresent then
    ([msg1], t, some "server does not support the tools capability")
  else if result.mcpSessionId = "" then
    ([msg1], { t with serverVersion := result.serverVersion },
      some "server did not return a Mcp-Session-Id during initialization")
  else
    let t1 := { t with
      serverVersion := result.serverVersion
      sessionId := result.mcpSessionId }
    let msg2 := sendNotificationMsg t1 "notifications/initialized" (.obj [])
    ([msg1, msg2], t1, none)

/-! ## Shared lemmas -/

theorem mem_insertUsed (u : List String) (s x : String) :
    x ∈ insertUsed u s ↔ x ∈ u ∨ x = s := by
  unfold insertUsed
  split
  · rename_i h
    rw [List.elem_iff] at h
    constructor
    · exact fun hx => Or.inl hx
    · rintro (hx | rfl)
      · exact hx
      · exact h
  · simp [or_comm]

theorem mem_foldl_insertUsed (ks : List String) (u : List String) (x : String) :
    x ∈ ks.foldl insertUsed u ↔ x ∈ u ∨ x ∈ ks := by
  induction ks generalizing u with
  | nil => simp
  | cons k rest ih =>
    simp only [List.foldl_cons, ih, mem_insertUsed, List.mem_cons]
    tauto

/-! ## C1 : the handshake executes at most once per transport instance -/

theorem ensureCalls_done (hook : Nat → Option String) (b : BaseMcpTransport)
    (n : Nat) (h : b.initDone = true) :
    ensureCalls hook b n = (b, List.replicate n b.initErr) := by
  induction n with
  | zero => simp [ensureCalls]
  | succ m ih => simp [ensureCalls, EnsureInitialized, h, ih, List.replicate_succ]

/-- C1: on a fresh transport, any sequence of `n + 1` calls to
`EnsureInitialized` executes the handshake hook exactly once, and every
caller (including all later ones) observes the outcome of that single first
attempt, success or failure alike, with no second attempt. -/
theorem ensureInitialized_single_attempt (hook : Nat → Option String) (n : Nat) :
    (ensureCalls hook BaseMcpTransport.fresh (n + 1)).1.attempts = 1 ∧
    (ensureCalls hook BaseMcpTransport.fresh (n + 1)).2 =
      List.replicate (n + 1) (hook 0) := by
  have hstep : EnsureInitialized hook BaseMcpTransport.fresh =
      ({ initDone := true, initErr := hook 0, attempts := 1 }, hook 0) := by
    simp [EnsureInitialized, BaseMcpTransport.fresh]
  have hrest := ensureCalls_done hook
    { initDone := true, initErr := hook 0, attempts := 1 } n rfl
  constructor
  · simp [ensureCalls, hstep, hrest]
  · simp [ensureCalls, hstep, hrest, List.replicate_succ]

/-! ## C2 : the authz requirement is a single OR group -/

theorem identifyAuthzLoop_met (src : List String) (toks : List String)
    (m : Bool) (u : List String) :
    (identifyAuthzLoop src toks (m, u)).1 =
      (m || toks.any fun t => src.contains t) := by
  induction toks generalizing m u with
  | nil => simp [identifyAuthzLoop]
  | cons t rest ih =>
    rw [List.any_cons]
    by_cases h : src.contains t = true
    · simp only [identifyAuthzLoop]
      rw [if_pos h, ih, h]
      simp
    · have h0 : src.contains t = false := by simpa using h
      simp only [identifyAuthzLoop]
      rw [if_neg h, ih, h0]
      simp

theorem identifyAuthzLoop_used_mono (src : List String) (toks : List String)
    (m : Bool) (u : List String) (x : String) (hx : x ∈ u) :
    x ∈ (identifyAuthzLoop src toks (m, u)).2 := by
  induction toks generalizing m u with
  | nil => exact hx
  | cons t rest ih =>
    by_cases h : src.contains t = true
    · simp only [identifyAuthzLoop]
      rw [if_pos h]
      exact ih true _ ((mem_insertUsed _ _ _).mpr (Or.inl hx))
    · simp only [identifyAuthzLoop]
      rw [if_neg h]
      exact ih m _ hx

theorem identifyAuthzLoop_used (src : List String) (toks : List String)
    (m : Bool) (u : List String) (t : String) (ht : t ∈ toks)
    (hp : src.contains t = true) :
    t ∈ (identifyAuthzLoop src toks (m, u)).2 := by
  induction toks generalizing m u with
  | nil => cases ht
  | cons t0 rest ih =>
    rcases List.mem_cons.mp ht with rfl | hmem
    · simp only [identifyAuthzLoop]
      rw [if_pos hp]
      exact identifyAuthzLoop_used_mono src rest true _ t
        ((mem_insertUsed u t t).mpr (Or.inr rfl))
    · by_cases h0 : src.contains t0 = true
      · simp only [identifyAuthzLoop]
        rw [if_pos h0]
        exact ih _ _ hmem
      · simp only [identifyAuthzLoop]
        rw [if_neg h0]
        exact ih _ _ hmem

/-- C2: for `identifyAuthRequirements`, if at least one required authz
service is among the provided token sources then the unmet-authz list is
empty and every matching service is recorded as used; if none of a
non-empty required list is available, the entire original list is returned
as still required. -/
theorem identifyAuthRequirements_authz_or_group
    (reqAuthnParams : List (String × List String))
    (reqAuthzTokens : List String) (authTokenSources : List String) :
    ((∃ s ∈ reqAuthzTokens, s ∈ authTokenSources) →
      (identifyAuthRequirements reqAuthnParams reqAuthzTokens
        authTokenSources).2.1 = [] ∧
      ∀ s ∈ reqAuthzTokens, s ∈ authTokenSources →
        s ∈ (identifyAuthRequirements reqAuthnParams reqAuthzTokens
          authTokenSources).2.2) ∧
    (reqAuthzTokens ≠ [] → (∀ s ∈ reqAuthzTokens, s ∉ authTokenSources) →
      (identifyAuthRequirements reqAuthnParams reqAuthzTokens
        authTokenSources).2.1 = reqAuthzTokens) := by
  constructor
  · rintro ⟨s, hs, hsrc⟩
    have hmet : (identifyAuthzLoop authTokenSources reqAuthzTokens
        (false, (identifyAuthnLoop authTokenSources reqAuthnParams ([], [])).2)).1 = true := by
      rw [identifyAuthzLoop_met]
      simp only [Bool.false_or, List.any_eq_true]
      exact ⟨s, hs, List.elem_iff.mpr hsrc⟩
    constructor
    · simp only [identifyAuthRequirements]
      rw [hmet]
      simp
    · intro t ht htsrc
      simp only [identifyAuthRequirements]
      exact identifyAuthzLoop_used _ _ _ _ t ht (List.elem_iff.mpr htsrc)
  · intro hne hnone
    have hmet : (identifyAuthzLoop authTokenSources reqAuthzTokens
        (false, (identifyAuthnLoop authTokenSources reqAuthnParams ([], [])).2)).1 = false := by
      rw [identifyAuthzLoop_met]
      simp only [Bool.false_or]
      rw [List.any_eq_false]
      intro s hs hsrc
      exact hnone s hs (List.elem_iff.mp hsrc)
    simp only [identifyAuthRequirements]
    rw [hmet]
    simp

/-- Witness for C2 at concrete inputs: with required authz `[x, y]`,
sources `{y}` satisfy the whole group and record `y` as used, while
sources `{z}` leave the entire original list required. -/
theorem identifyAuthRequirements_authz_or_group_witness :
    ((identifyAuthRequirements [] ["x", "y"] ["y"]).2.1 = [] ∧
      "y" ∈ (identifyAuthRequirements [] ["x", "y"] ["y"]).2.2) ∧
    (identifyAuthRequirements [] ["x", "y"] ["z"]).2.1 = ["x", "y"] := by
  refine ⟨⟨?_, ?_⟩, ?_⟩
  · exact ((identifyAuthRequirements_authz_or_group [] ["x", "y"] ["y"]).1
      ⟨"y", by simp, by simp⟩).1
  · exact ((identifyAuthRequirements_authz_or_group [] ["x", "y"] ["y"]).1
      ⟨"y", by simp, by simp⟩).2 "y" (by simp) (by simp)
  · exact (identifyAuthRequirements_authz_or_group [] ["x", "y"] ["z"]).2
      (by simp) (by simp)

/-! ## C7 : InvokeTool result processing -/

theorem string_foldl_append (l : List String) (a : String) :
    List.foldl (fun r s => r ++ s) a l = a ++ List.foldl (fun r s => r ++ s) "" l := by
  induction l generalizing a with
  | nil => simp
  | cons s rest ih =>
    simp only [List.foldl_cons]
    rw [ih (a ++ s), ih ("" ++ s)]
    simp [String.append_assoc]

theorem textConcat_foldl (l : List TextContent) (init : String) :
    l.foldl (fun sb c => if c.type = "text" then sb ++ c.text else sb) init =
      init ++ String.join ((l.filter (fun c => c.type = "text")).map
        TextContent.text) := by
  induction l generalizing init with
  | nil => simp [String.join]
  | cons c rest ih =>
    by_cases h : c.type = "text"
    · simp only [List.foldl_cons, List.filter_cons, h, if_pos rfl]
      rw [ih]
      simp only [decide_True, if_true, List.map_cons, String.join, List.foldl_cons]
      rw [string_foldl_append _ ("" ++ c.text)]
      simp [String.append_assoc]
    · simp only [List.foldl_cons, List.filter_cons, h, if_neg h]
      simp only [decide_eq_true_eq]
      rw [ih]
      simp [h]

/-- C7: for a `tools/call` result that arrived intact, a result flagged as
an error yields exactly the failure message "tool execution resulted in
error"; otherwise the output is the in-order concatenation of the text of
every content block of kind "text" (other kinds contribute nothing), and
the literal string "null" when that concatenation is empty.  The second
conjunct is the spec scenario with blocks of kinds text/image/text. -/
theorem invokeTool_result_processing (result : CallToolResult) :
    (processCallToolResult result =
      if result.isError then .error "tool execution resulted in error"
      else
        let c := String.join (((result.content.filter
          (fun b => b.type = "text")).map TextContent.text))
        if c = "" then .ok "null" else .ok c) ∧
    processCallToolResult
        { content := [{ type := "text", text := "A " },
                      { type := "image", text := "b64" },
                      { type := "text", text := "B" }],
          isError := false } = .ok "A B" := by
  constructor
  · unfold processCallToolResult
    by_cases h : result.isError
    · simp [h]
    · simp only [h, if_neg h, Bool.false_eq_true, if_false]
      rw [textConcat_foldl]
      simp
  · simp [processCallToolResult, String.join]

/-! ## C3 : validateType implements exactly the type table -/

theorem validateType_iff_specTable :
    ∀ (p : Parameter) (v : GoValue),
      validateType p v = .ok () ↔ specTypeMatches p v = true := by
  apply validateType.induct
    (fun p v => validateType p v = .ok () ↔ specTypeMatches p v = true)
    (fun pname q i xs =>
      validateItems pname q i xs = .ok () ↔ specAllItems q xs = true)
  · intro n ptype d a items
    simp [validateType, specTypeMatches]
  · intro n d a items s h
    simp [validateType, specTypeMatches]
  · intro v n d a items h1 h2
    cases v <;> simp_all [validateType, specTypeMatches]
  · intro n d a items k h
    simp [validateType, specTypeMatches]
  · intro v n d a items h1 h2
    cases v <;> simp_all [validateType, specTypeMatches]
  · intro n d a items val h
    simp [validateType, specTypeMatches]
  · intro v n d a items h1 h2
    cases v <;> simp_all [validateType, specTypeMatches]
  · intro n d a items b h
    simp [validateType, specTypeMatches]
  · intro v n d a items h1 h2
    cases v <;> simp_all [validateType, specTypeMatches]
  · intro n d a xs h
    simp [validateType, specTypeMatches]
  · intro n d r a xs q h ih
    simp only [validateType, specTypeMatches]
    exact ih
  · intro v n d a items h1 h2
    cases v <;> simp_all [validateType, specTypeMatches]
  · intro v n d a items other hs hi hf hb ha hn
    cases v <;> simp_all [validateType, specTypeMatches]
  · intro pname q i
    simp [validateItems, specAllItems]
  · intro pname q i x rest e he ih1
    have hspec : specTypeMatches q x = false := by
      by_contra hc
      have hx : specTypeMatches q x = true := by simpa using hc
      have := ih1.mpr hx
      rw [he] at this
      simp at this
    simp [validateItems, he, specAllItems, hspec]
  · intro pname q i x rest ho ih1 ih2
    have hspec : specTypeMatches q x = true := ih1.mp ho
    simp only [validateItems, ho, specAllItems, hspec, Bool.true_and]
    exact ih2

theorem validateType_nil (p : Parameter) :
    validateType p .vnil = .error (.nilValue p.name) := by
  rcases p with ⟨n, t, d, r, a, items⟩
  simp [validateType, Parameter.name]

theorem validateType_array_missing_items (p : Parameter) (v : GoValue)
    (hty : p.ptype = "array") (hit : p.items = none) :
    ∃ e, validateType p v = .error e := by
  rcases p with ⟨n, t, d, r, a, items⟩
  simp only [Parameter.ptype] at hty
  simp only [Parameter.items] at hit
  subst hty
  subst hit
  cases v with
  | vnil => exact ⟨.nilValue n, by simp [validateType]⟩
  | vstr s => exact ⟨.typeMismatch n "array", by simp [validateType]⟩
  | vint k => exact ⟨.typeMismatch n "array", by simp [validateType]⟩
  | vfloat f => exact ⟨.typeMismatch n "array", by simp [validateType]⟩
  | vbool b => exact ⟨.typeMismatch n "array", by simp [validateType]⟩
  | varr xs => exact ⟨.missingItems n, by simp [validateType]⟩
  | vother ty => exact ⟨.typeMismatch n "array", by simp [validateType]⟩

theorem validateItems_error (pname : String) (q : Parameter) :
    ∀ (xs : List GoValue) (i : Nat) (e : VErr),
      validateItems pname q i xs = .error e →
      ∃ j e2, e = .atIndex pname (i + j) e2 ∧ j < xs.length ∧
        validateType q (xs.getD j .vnil) = .error e2 := by
  intro xs
  induction xs with
  | nil =>
    intro i e h
    simp [validateItems] at h
  | cons x rest ih =>
    intro i e h
    cases hx : validateType q x with
    | error e0 =>
      simp only [validateItems, hx] at h
      refine ⟨0, e0, ?_, by simp, by simpa using hx⟩
      simp only [Nat.add_zero]
      exact (Except.error.injEq _ _).mp h |>.symm
    | ok u =>
      cases u
      simp only [validateItems, hx] at h
      rcases ih (i + 1) e h with ⟨j, e2, he, hj, hv⟩
      refine ⟨j + 1, e2, ?_, by simpa using hj, by simpa using hv⟩
      have harith : i + (j + 1) = i + 1 + j := by omega
      rw [harith]
      exact he

theorem validateType_unknown_type (p : Parameter) (v : GoValue)
    (hty : p.ptype ∉ (["string", "integer", "float", "boolean", "array"] : List String))
    (hv : v ≠ .vnil) :
    validateType p v = .error (.unknownType p.ptype p.name) := by
  rcases p with ⟨n, t, d, r, a, items⟩
  simp only [Parameter.ptype, Parameter.name] at *
  simp only [List.mem_cons, List.not_mem_nil, or_false, not_or] at hty
  obtain ⟨h1, h2, h3, h4, h5⟩ := hty
  cases v <;> simp_all [validateType]

/-- C3: `validateType p v` succeeds exactly when `v` matches the declared
type of `p` per the table of section 4.5a (string, integer with no
float-to-int coercion, float, boolean, array checked element-wise against
the items schema); it fails on a nil value naming the parameter, fails for
an array parameter without an items schema regardless of the value, embeds
the failing element index in array element failures, and fails with an
unknown-type error for any other declared type. -/
theorem validateType_spec (p : Parameter) (v : GoValue) :
    (validateType p v = .ok () ↔ specTypeMatches p v = true) ∧
    (validateType p .vnil = .error (.nilValue p.name)) ∧
    (p.ptype = "array" → p.items = none → ∃ e, validateType p v = .error e) ∧
    (∀ q xs e, p.ptype = "array" → p.items = some q → v = .varr xs →
      validateType p v = .error e →
      ∃ j e2, e = .atIndex p.name j e2 ∧ j < xs.length ∧
        validateType q (xs.getD j .vnil) = .error e2) ∧
    (p.ptype ∉ (["string", "integer", "float", "boolean", "array"] : List String) →
      v ≠ .vnil → validateType p v = .error (.unknownType p.ptype p.name)) := by
  refine ⟨validateType_iff_specTable p v, validateType_nil p,
    validateType_array_missing_items p v, ?_, validateType_unknown_type p v⟩
  intro q xs e hty hit hveq herr
  subst hveq
  rcases p with ⟨n, t, d, r, a, items⟩
  simp only [Parameter.ptype] at hty
  simp only [Parameter.items] at hit
  subst hty
  subst hit
  simp only [validateType] at herr
  simp only [Parameter.name]
  rcases validateItems_error n q xs 0 e herr with ⟨j, e2, he, hj, hv⟩
  exact ⟨j, e2, by simpa using he, hj, hv⟩

/-- Witness for C3 at concrete inputs: an integer parameter accepts an int
and rejects a numerically integral float, an items-less array parameter
rejects a well-typed array, a failing array element is reported under its
index, and an unknown declared type fails. -/
theorem validateType_spec_witness :
    (validateType (.mk "p" "integer" "" false [] none) (.vint 3) = .ok ()) ∧
    validateType (.mk "p" "integer" "" false [] none) (.vfloat 5) ≠ .ok () ∧
    (∃ e, validateType (.mk "p" "array" "" false [] none)
      (.varr [.vstr "a"]) = .error e) ∧
    (∃ j e2, (VErr.atIndex "p" 1 (.typeMismatch "q" "string")) =
        .atIndex "p" j e2 ∧ j < ([GoValue.vstr "a", GoValue.vint 3] : List GoValue).length ∧
        validateType (.mk "q" "string" "" false [] none)
          (([GoValue.vstr "a", GoValue.vint 3] : List GoValue).getD j .vnil) = .error e2) ∧
    validateType (.mk "p" "point" "" false [] none) (.vint 3) =
      .error (.unknownType "point" "p") := by
  refine ⟨?_, ?_, ?_, ?_, ?_⟩
  · exact (validateType_spec (.mk "p" "integer" "" false [] none) (.vint 3)).1.mpr
      (by simp [specTypeMatches])
  · intro h
    have := (validateType_spec (.mk "p" "integer" "" false [] none) (.vfloat 5)).1.mp h
    simp [specTypeMatches] at this
  · exact (validateType_spec (.mk "p" "array" "" false [] none)
      (.varr [.vstr "a"])).2.2.1 rfl rfl
  · exact (validateType_spec
        (.mk "p" "array" "" false []
          (some (.mk "q" "string" "" false [] none)))
        (.varr [.vstr "a", .vint 3])).2.2.2.1
      (.mk "q" "string" "" false [] none) [.vstr "a", .vint 3]
      (.atIndex "p" 1 (.typeMismatch "q" "string")) rfl rfl rfl
      (by simp [validateType, validateItems])
  · exact (validateType_spec (.mk "p" "point" "" false [] none)
      (.vint 3)).2.2.2.2 (by simp [Parameter.ptype]) (by simp)

/-! ## C8 : session-id propagation of the v2025-03-26 transport -/

theorem mem_alKeys_alSet {α : Type} (l : List (String × α)) (k : String) (v : α) :
    k ∈ alKeys (alSet l k v) := by
  induction l with
  | nil => simp [alSet, alKeys]
  | cons kv rest ih =>
    rcases kv with ⟨k0, v0⟩
    by_cases h : k0 = k
    · subst h
      simp [alSet, alKeys]
    · simp only [alSet, if_neg h, alKeys, List.map_cons, List.mem_cons]
      exact Or.inr ih

/-- Counterexample to C8 as stated: on a successful v2025-03-26 handshake
the session identifier is stored before the confirming `initialized`
notification is sent, so that notification itself carries the
`Mcp-Session-Id` field in its params, contradicting the claim that the
handshake's own messages carry no session identifier. -/
theorem initializedNotification_carries_sessionId :
    (initializeSession
        { protocolVersion := "2025-03-26", sessionId := "", serverVersion := "" }
        { protocolVersion := "2025-03-26", capabilitiesToolsPresent := true,
          serverVersion := "1.0", mcpSessionId := "sess-1" }).2.2 = none ∧
    ((initializeSession
        { protocolVersion := "2025-03-26", sessionId := "", serverVersion := "" }
        { protocolVersion := "2025-03-26", capabilitiesToolsPresent := true,
          serverVersion := "1.0", mcpSessionId := "sess-1" }).1.getD 1
      { isNotification := true, method := "", params := .nonObj }).method =
        "notifications/initialized" ∧
    (((initializeSession
        { protocolVersion := "2025-03-26", sessionId := "", serverVersion := "" }
        { protocolVersion := "2025-03-26", capabilitiesToolsPresent := true,
          serverVersion := "1.0", mcpSessionId := "sess-1" }).1.getD 1
      { isNotification := true, method := "", params := .nonObj }).params.fieldKeys).contains
        "Mcp-Session-Id" = true := by
  refine ⟨rfl, rfl, ?_⟩
  simp [initializeSession, sendRequestMsg, sendNotificationMsg,
    injectSessionIdNotification, injectSessionIdRequest, initializeParams,
    RPCParams.fieldKeys, alKeys, alSet]

/-- C8 (amended): for the session-bearing v2025-03-26 transport, the
server-issued session identifier is merged as a field into the params of
every request sent with a non-initialize method once the identifier is
set (hence into every tools/list and tools/call request after a successful
handshake); the initialize request itself never receives the field; but
the confirming `initialized` notification of a successful handshake is
sent after the identifier is stored and therefore does carry it. -/
theorem sessionId_param_injection
    (t : McpTransport) (method : String) (fields : List (String × GoValue))
    (hsid : t.sessionId ≠ "") (hm : method ≠ "initialize") :
    ((sendRequestMsg t method (.obj fields)).params =
        .obj (alSet fields "Mcp-Session-Id" (.vstr t.sessionId)) ∧
      ((sendRequestMsg t method (.obj fields)).params.fieldKeys).contains
        "Mcp-Session-Id" = true) ∧
    (∀ params, (sendRequestMsg t "initialize" params).params = params) ∧
    (∀ t0 result msgs t1,
      initializeSession t0 result = (msgs, t1, none) →
      ∃ m ∈ msgs, m.isNotification = true ∧
        m.method = "notifications/initialized" ∧
        (m.params.fieldKeys).contains "Mcp-Session-Id" = true) := by
  refine ⟨⟨?_, ?_⟩, ?_, ?_⟩
  · simp [sendRequestMsg, injectSessionIdRequest, hm, hsid]
  · simp only [sendRequestMsg, injectSessionIdRequest, hm, hsid, and_self,
      ne_eq, not_false_iff, if_true]
    simp only [RPCParams.fieldKeys]
    exact List.elem_iff.mpr (mem_alKeys_alSet fields _ _)
  · intro params
    simp [sendRequestMsg, injectSessionIdRequest]
  · intro t0 result msgs t1 h
    simp only [initializeSession] at h
    by_cases h1 : result.protocolVersion ≠ t0.protocolVersion
    · rw [if_pos h1] at h
      simp at h
    · rw [if_neg h1] at h
      by_cases h2 : ¬ result.capabilitiesToolsPresent
      · rw [if_pos h2] at h
        simp at h
      · rw [if_neg h2] at h
        by_cases h3 : result.mcpSessionId = ""
        · rw [if_pos h3] at h
          simp at h
        · rw [if_neg h3] at h
          simp only [Prod.mk.injEq] at h
          obtain ⟨hmsgs, -⟩ := h
          subst hmsgs
          refine ⟨sendNotificationMsg
              { protocolVersion := t0.protocolVersion,
                sessionId := result.mcpSessionId,
                serverVersion := result.serverVersion }
              "notifications/initialized" (.obj []),
            List.Mem.tail _ (List.Mem.head _), rfl, rfl, ?_⟩
          simp only [sendNotificationMsg, injectSessionIdNotification]
          rw [if_pos h3]
          simp [RPCParams.fieldKeys, alKeys, alSet]

/-- Witness for the amended C8: with a stored session id `sess-1`,
a tools/call request receives the `Mcp-Session-Id` field while an
initialize request does not. -/
theorem sessionId_param_injection_witness :
    ((sendRequestMsg
        { protocolVersion := "2025-03-26", sessionId := "sess-1",
          serverVersion := "1.0" } "tools/call" (.obj [])).params =
      .obj [("Mcp-Session-Id", .vstr "sess-1")]) ∧
    (sendRequestMsg
        { protocolVersion := "2025-03-26", sessionId := "sess-1",
          serverVersion := "1.0" } "initialize" (.obj [])).params = .obj [] := by
  constructor
  · exact (sessionId_param_injection
      { protocolVersion := "2025-03-26", sessionId := "sess-1",
        serverVersion := "1.0" } "tools/call" []
      (by simp) (by simp)).1.1
  · exact (sessionId_param_injection
      { protocolVersion := "2025-03-26", sessionId := "sess-1",
        serverVersion := "1.0" } "tools/call" []
      (by simp) (by simp)).2.1 (.obj [])

/-! ## C9 : clone independence -/

theorem getD_append_lt (cells ext : List (List GoValue)) (r : Nat)
    (h : r < cells.length) :
    (cells ++ ext).getD r [] = cells.getD r [] := by
  unfold List.getD
  rw [List.get?_eq_getElem?, List.get?_eq_getElem?, List.getElem?_append, if_pos h]

theorem getD_concat_self (cells : List (List GoValue)) (a : List GoValue) :
    (cells ++ [a]).getD cells.length [] = a := by
  unfold List.getD
  rw [List.get?_eq_getElem?, List.getElem?_concat_length]
  rfl

theorem getD_set_ne (cells : List (List GoValue)) (i j : Nat) (v : List GoValue)
    (h : i ≠ j) : (cells.set i v).getD j [] = cells.getD j [] := by
  unfold List.getD
  rw [List.get?_eq_getElem?, List.get?_eq_getElem?, List.getElem?_set_ne h]

theorem mem_sliceRefsOf (l : List (String × BoundVal)) (k : String) (r : Nat)
    (h : (k, .sliceRef r) ∈ l) : r ∈ sliceRefsOf l := by
  unfold sliceRefsOf
  exact List.mem_filterMap.mpr ⟨(k, .sliceRef r), h, rfl⟩

theorem boundView_append (st : Store) (ext : List (List GoValue))
    (l : List (String × BoundVal)) (h : WFBound st l) :
    boundView ⟨st.cells ++ ext⟩ l = boundView st l := by
  unfold boundView
  apply List.map_congr_left
  intro kv hkv
  rcases kv with ⟨k, bv⟩
  cases bv with
  | scalar v => rfl
  | sliceRef r =>
    have hr : r < st.cells.length := h r (mem_sliceRefsOf l k r hkv)
    simp only [resolveBound]
    rw [getD_append_lt _ _ _ hr]

theorem boundView_write_ne (st : Store) (l : List (String × BoundVal))
    (r0 : Nat) (xs : List GoValue) (h : ∀ r ∈ sliceRefsOf l, r ≠ r0) :
    boundView (st.write r0 xs) l = boundView st l := by
  unfold boundView
  apply List.map_congr_left
  intro kv hkv
  rcases kv with ⟨k, bv⟩
  cases bv with
  | scalar v => rfl
  | sliceRef r =>
    have hr : r ≠ r0 := h r (mem_sliceRefsOf l k r hkv)
    simp only [resolveBound, Store.write]
    rw [getD_set_ne _ _ _ _ (fun he => hr he.symm)]

theorem cloneBoundParams_cells (l : List (String × BoundVal)) :
    ∀ st : Store, ∃ ext, (cloneBoundParams st l).1.cells = st.cells ++ ext := by
  induction l with
  | nil =>
    intro st
    exact ⟨[], by simp [cloneBoundParams]⟩
  | cons kv rest ih =>
    intro st
    rcases kv with ⟨k, bv⟩
    cases bv with
    | scalar v => simpa [cloneBoundParams] using ih st
    | sliceRef r =>
      rcases ih ⟨st.cells ++ [st.cells.getD r []]⟩ with ⟨ext, hext⟩
      refine ⟨[st.cells.getD r []] ++ ext, ?_⟩
      simp only [cloneBoundParams]
      rw [hext]
      simp

theorem cloneBoundParams_keys (l : List (String × BoundVal)) :
    ∀ st : Store, alKeys (cloneBoundParams st l).2 = alKeys l := by
  induction l with
  | nil => intro st; rfl
  | cons kv rest ih =>
    intro st
    rcases kv with ⟨k, bv⟩
    cases bv with
    | scalar v => simp [cloneBoundParams, alKeys] at ih ⊢; exact ih st
    | sliceRef r => simp [cloneBoundParams, alKeys] at ih ⊢; exact ih _

theorem cloneBoundParams_refs_ge (l : List (String × BoundVal)) :
    ∀ st : Store, ∀ r ∈ sliceRefsOf (cloneBoundParams st l).2,
      st.cells.length ≤ r := by
  induction l with
  | nil =>
    intro st r hr
    simp [cloneBoundParams, sliceRefsOf] at hr
  | cons kv rest ih =>
    intro st r hr
    rcases kv with ⟨k, bv⟩
    cases bv with
    | scalar v =>
      simp only [cloneBoundParams, sliceRefsOf, List.filterMap_cons] at hr
      exact ih st r hr
    | sliceRef r0 =>
      simp only [cloneBoundParams, sliceRefsOf, List.filterMap_cons,
        List.mem_cons] at hr
      rcases hr with rfl | hr
      · exact Nat.le_refl _
      · have := ih ⟨st.cells ++ [st.cells.getD r0 []]⟩ r hr
        simp only [List.length_append, List.length_cons, List.length_nil] at this
        omega

theorem cloneBoundParams_view (l : List (String × BoundVal)) :
    ∀ st : Store, WFBound st l →
      boundView (cloneBoundParams st l).1 (cloneBoundParams st l).2 =
        boundView st l := by
  induction l with
  | nil => intro st h; rfl
  | cons kv rest ih =>
    intro st h
    rcases kv with ⟨k, bv⟩
    have hrest : WFBound st rest := by
      intro r hr
      refine h r ?_
      unfold sliceRefsOf at hr ⊢
      cases bv <;> simp [List.filterMap_cons] at hr ⊢ <;> tauto
    cases bv with
    | scalar v =>
      simp only [cloneBoundParams, boundView, List.map_cons]
      congr 1
      exact ih st hrest
    | sliceRef r =>
      have hr : r < st.cells.length := by
        refine h r ?_
        unfold sliceRefsOf
        simp [List.filterMap_cons]
      have hrest1 : WFBound ⟨st.cells ++ [st.cells.getD r []]⟩ rest := by
        intro r2 hr2
        have := hrest r2 hr2
        simp only [List.length_append, List.length_cons, List.length_nil]
        omega
      simp only [cloneBoundParams, boundView, List.map_cons]
      congr 1
      · rcases cloneBoundParams_cells rest ⟨st.cells ++ [st.cells.getD r []]⟩
          with ⟨ext, hext⟩
        simp only [resolveBound]
        rw [hext]
        have hlt : st.cells.length < (st.cells ++ [st.cells.getD r []]).length := by
          simp
        rw [getD_append_lt _ ext _ hlt, getD_concat_self]
      · exact (ih ⟨st.cells ++ [st.cells.getD r []]⟩ hrest1).trans
          (boundView_append st [st.cells.getD r []] rest hrest)

theorem cloneBoundParams_parent_view (l : List (String × BoundVal)) (st : Store)
    (h : WFBound st l) :
    boundView (cloneBoundParams st l).1 l = boundView st l := by
  rcases cloneBoundParams_cells l st with ⟨ext, hext⟩
  have hst : (cloneBoundParams st l).1 = ⟨st.cells ++ ext⟩ := by
    rw [← hext]
  rw [hst]
  exact boundView_append st ext l h

/-- C9: `cloneToolboxTool` (the derivation copy step) leaves every parent
field observably unchanged and gives the child equal but independently
allocated bound-parameter state: the child's resolved view equals the
parent's, the parent's view is untouched by the cloning, the slice cells
reachable from child and parent are disjoint, and mutating any slice cell
of one side never changes the resolved view of the other. -/
theorem cloneToolboxTool_no_aliasing (st : Store) (tt : ToolboxTool)
    (hwf : WFBound st tt.boundParams) :
    ((cloneToolboxTool st tt).2.name = tt.name ∧
      (cloneToolboxTool st tt).2.description = tt.description ∧
      (cloneToolboxTool st tt).2.invocationURL = tt.invocationURL ∧
      (cloneToolboxTool st tt).2.parameters = tt.parameters ∧
      (cloneToolboxTool st tt).2.authTokenSources = tt.authTokenSources ∧
      (cloneToolboxTool st tt).2.requiredAuthnParams = tt.requiredAuthnParams ∧
      (cloneToolboxTool st tt).2.requiredAuthzTokens = tt.requiredAuthzTokens ∧
      (cloneToolboxTool st tt).2.clientHeaderSources = tt.clientHeaderSources) ∧
    boundView (cloneToolboxTool st tt).1 (cloneToolboxTool st tt).2.boundParams =
      boundView st tt.boundParams ∧
    boundView (cloneToolboxTool st tt).1 tt.boundParams =
      boundView st tt.boundParams ∧
    (∀ r ∈ sliceRefsOf (cloneToolboxTool st tt).2.boundParams,
      r ∉ sliceRefsOf tt.boundParams) ∧
    (∀ r ∈ sliceRefsOf (cloneToolboxTool st tt).2.boundParams, ∀ xs,
      boundView (((cloneToolboxTool st tt).1).write r xs) tt.boundParams =
        boundView (cloneToolboxTool st tt).1 tt.boundParams) ∧
    (∀ r ∈ sliceRefsOf tt.boundParams, ∀ xs,
      boundView (((cloneToolboxTool st tt).1).write r xs)
          (cloneToolboxTool st tt).2.boundParams =
        boundView (cloneToolboxTool st tt).1
          (cloneToolboxTool st tt).2.boundParams) := by
  have hbp : (cloneToolboxTool st tt).2.boundParams =
      (cloneBoundParams st tt.boundParams).2 := by
    simp [cloneToolboxTool]
  have hst : (cloneToolboxTool st tt).1 =
      (cloneBoundParams st tt.boundParams).1 := by
    simp [cloneToolboxTool]
  refine ⟨⟨?_, ?_, ?_, ?_, ?_, ?_, ?_, ?_⟩, ?_, ?_, ?_, ?_, ?_⟩
  · simp [cloneToolboxTool]
  · simp [cloneToolboxTool]
  · simp [cloneToolboxTool]
  · simp [cloneToolboxTool]
  · simp [cloneToolboxTool]
  · simp [cloneToolboxTool]
  · simp [cloneToolboxTool]
  · simp [cloneToolboxTool]
  · rw [hbp, hst]
    exact cloneBoundParams_view tt.boundParams st hwf
  · rw [hst]
    exact cloneBoundParams_parent_view tt.boundParams st hwf
  · intro r hr hmem
    rw [hbp] at hr
    have hge := cloneBoundParams_refs_ge tt.boundParams st r hr
    have hlt := hwf r hmem
    omega
  · intro r hr xs
    rw [hbp] at hr
    rw [hst]
    have hge := cloneBoundParams_refs_ge tt.boundParams st r hr
    apply boundView_write_ne
    intro r2 hr2
    have := hwf r2 hr2
    omega
  · intro r hr xs
    rw [hbp, hst]
    have hlt := hwf r hr
    apply boundView_write_ne
    intro r2 hr2
    have := cloneBoundParams_refs_ge tt.boundParams st r2 hr2
    omega

/-- Witness for C9 at a concrete store and descriptor holding one
slice-valued and one scalar bound parameter. -/
theorem cloneToolboxTool_no_aliasing_witness :
    WFBound ⟨[[GoValue.vint 1]]⟩
      ([("a", BoundVal.sliceRef 0), ("b", BoundVal.scalar (.vstr "s"))]) ∧
    boundView
        (cloneToolboxTool ⟨[[GoValue.vint 1]]⟩
          { name := "t", description := "", parameters := [],
            invocationURL := "", httpClientSet := true, authTokenSources := [],
            boundParams := [("a", BoundVal.sliceRef 0),
                            ("b", BoundVal.scalar (.vstr "s"))],
            requiredAuthnParams := [], requiredAuthzTokens := [],
            clientHeaderSources := [] }).1
        (cloneToolboxTool ⟨[[GoValue.vint 1]]⟩
          { name := "t", description := "", parameters := [],
            invocationURL := "", httpClientSet := true, authTokenSources := [],
            boundParams := [("a", BoundVal.sliceRef 0),
                            ("b", BoundVal.scalar (.vstr "s"))],
            requiredAuthnParams := [], requiredAuthzTokens := [],
            clientHeaderSources := [] }).2.boundParams =
      boundView ⟨[[GoValue.vint 1]]⟩
        [("a", BoundVal.sliceRef 0), ("b", BoundVal.scalar (.vstr "s"))] := by
  have hwf : WFBound ⟨[[GoValue.vint 1]]⟩
      ([("a", BoundVal.sliceRef 0), ("b", BoundVal.scalar (.vstr "s"))]) := by
    intro r hr
    simp [sliceRefsOf] at hr
    subst hr
    decide
  refine ⟨hwf, ?_⟩
  exact (cloneToolboxTool_no_aliasing ⟨[[GoValue.vint 1]]⟩
    { name := "t", description := "", parameters := [],
      invocationURL := "", httpClientSet := true, authTokenSources := [],
      boundParams := [("a", BoundVal.sliceRef 0),
                      ("b", BoundVal.scalar (.vstr "s"))],
      requiredAuthnParams := [], requiredAuthzTokens := [],
      clientHeaderSources := [] } hwf).2.1

/-! ## C4 : write-once bindings and auth sources on derivation -/

theorem alHasKey_alSet_self {α : Type} (l : List (String × α)) (k : String)
    (v : α) : alHasKey (alSet l k v) k = true := by
  unfold alHasKey
  exact List.elem_iff.mpr (mem_alKeys_alSet l k v)

theorem filter_unbound_not_contains (params : List Parameter)
    (m : List (String × BoundVal)) (k : String) (h : alHasKey m k = true) :
    ((params.filter (fun p => ! alHasKey m p.name)).map
      Parameter.name).contains k = false := by
  rw [Bool.eq_false_iff]
  intro hc
  rw [List.elem_iff] at hc
  rcases List.mem_map.mp hc with ⟨p, hp, hname⟩
  rcases List.mem_filter.mp hp with ⟨-, hpred⟩
  rw [Bool.not_eq_eq_eq_not, Bool.not_true] at hpred
  rw [hname] at hpred
  rw [h] at hpred
  cases hpred

/-- C4: deriving through `ToolFrom` is write-once: binding a name in the
parent's unbound parameter list succeeds and the name leaves the child's
unbound list; binding a name already bound on the parent fails as an
override; binding a name in neither place fails as unknown; and adding an
auth source for an already-set service fails as an override. -/
theorem toolFrom_write_once (st : Store) (tt : ToolboxTool)
    (hdisj : ∀ n, alHasKey tt.boundParams n = true →
      (tt.parameters.map Parameter.name).contains n = false)
    (k : String) (v : BoundVal) :
    ((tt.parameters.map Parameter.name).contains k = true →
      ∃ st1 tt1,
        ToolFrom st tt
          { authTokenSources := [], boundParams := [(k, v)], name := "",
            strict := false, nameSet := false, strictSet := false } =
          .ok (st1, tt1) ∧
        (tt1.parameters.map Parameter.name).contains k = false ∧
        alHasKey tt1.boundParams k = true) ∧
    (alHasKey tt.boundParams k = true →
      ToolFrom st tt
        { authTokenSources := [], boundParams := [(k, v)], name := "",
          strict := false, nameSet := false, strictSet := false } =
        .error (.overrideBoundParam k)) ∧
    (alHasKey tt.boundParams k = false →
      (tt.parameters.map Parameter.name).contains k = false →
      ToolFrom st tt
        { authTokenSources := [], boundParams := [(k, v)], name := "",
          strict := false, nameSet := false, strictSet := false } =
        .error (.unknownParameter k)) ∧
    (∀ s, tt.authTokenSources.contains s = true →
      ToolFrom st tt
        { authTokenSources := [s], boundParams := [], name := "",
          strict := false, nameSet := false, strictSet := false } =
        .error (.overrideAuthSource s)) := by
  have hbp : (cloneToolboxTool st tt).2.boundParams =
      (cloneBoundParams st tt.boundParams).2 := by
    simp [cloneToolboxTool]
  have hauth : (cloneToolboxTool st tt).2.authTokenSources =
      tt.authTokenSources := by
    simp [cloneToolboxTool]
  refine ⟨?_, ?_, ?_, ?_⟩
  · intro hk
    simp only [ToolFrom, Bool.false_eq_true, if_false, mergeAuthSources,
      mergeBoundParams, hbp, hauth]
    rw [if_pos hk]
    simp only [mergeBoundParams]
    refine ⟨_, _, rfl, ?_, ?_⟩
    · exact filter_unbound_not_contains tt.parameters _ k
        (alHasKey_alSet_self _ k v)
    · exact alHasKey_alSet_self _ k v
  · intro hk
    have hnk : (tt.parameters.map Parameter.name).contains k = false := hdisj k hk
    simp only [ToolFrom, Bool.false_eq_true, if_false, mergeAuthSources,
      mergeBoundParams, hbp, hauth]
    rw [if_neg (by rw [hnk]; simp), if_pos hk]
  · intro hk hnk
    simp only [ToolFrom, Bool.false_eq_true, if_false, mergeAuthSources,
      mergeBoundParams, hbp, hauth]
    rw [if_neg (by rw [hnk]; simp), if_neg (by rw [hk]; simp)]
  · intro s hs
    simp only [ToolFrom, Bool.false_eq_true, if_false, mergeAuthSources, hauth]
    rw [if_pos hs]

/-- Witness for C4: on a tool with unbound parameter `p1`, bound parameter
`b1` and auth source `g`, binding `p1` succeeds and removes it from the
unbound list, while rebinding `b1`, binding an unknown name and re-adding
`g` all fail. -/
theorem toolFrom_write_once_witness :
    (∃ st1 tt1,
      ToolFrom ⟨[]⟩
        { name := "t", description := "", httpClientSet := true,
          parameters := [.mk "p1" "string" "" false [] none],
          invocationURL := "", authTokenSources := ["g"],
          boundParams := [("b1", BoundVal.scalar (.vstr "x"))],
          requiredAuthnParams := [], requiredAuthzTokens := [],
          clientHeaderSources := [] }
        { authTokenSources := [], boundParams := [("p1", BoundVal.scalar (.vint 7))],
          name := "", strict := false, nameSet := false, strictSet := false } =
        .ok (st1, tt1) ∧
      (tt1.parameters.map Parameter.name).contains "p1" = false ∧
      alHasKey tt1.boundParams "p1" = true) ∧
    ToolFrom ⟨[]⟩
      { name := "t", description := "", httpClientSet := true,
        parameters := [.mk "p1" "string" "" false [] none],
        invocationURL := "", authTokenSources := ["g"],
        boundParams := [("b1", BoundVal.scalar (.vstr "x"))],
        requiredAuthnParams := [], requiredAuthzTokens := [],
        clientHeaderSources := [] }
      { authTokenSources := [], boundParams := [("b1", BoundVal.scalar (.vint 7))],
        name := "", strict := false, nameSet := false, strictSet := false } =
      .error (.overrideBoundParam "b1") ∧
    ToolFrom ⟨[]⟩
      { name := "t", description := "", httpClientSet := true,
        parameters := [.mk "p1" "string" "" false [] none],
        invocationURL := "", authTokenSources := ["g"],
        boundParams := [("b1", BoundVal.scalar (.vstr "x"))],
        requiredAuthnParams := [], requiredAuthzTokens := [],
        clientHeaderSources := [] }
      { authTokenSources := [], boundParams := [("zz", BoundVal.scalar (.vint 7))],
        name := "", strict := false, nameSet := false, strictSet := false } =
      .error (.unknownParameter "zz") ∧
    ToolFrom ⟨[]⟩
      { name := "t", description := "", httpClientSet := true,
        parameters := [.mk "p1" "string" "" false [] none],
        invocationURL := "", authTokenSources := ["g"],
        boundParams := [("b1", BoundVal.scalar (.vstr "x"))],
        requiredAuthnParams := [], requiredAuthzTokens := [],
        clientHeaderSources := [] }
      { authTokenSources := ["g"], boundParams := [], name := "",
        strict := false, nameSet := false, strictSet := false } =
      .error (.overrideAuthSource "g") := by
  have hdisj : ∀ n,
      alHasKey [("b1", BoundVal.scalar (GoValue.vstr "x"))] n = true →
      (([Parameter.mk "p1" "string" "" false [] none].map
        Parameter.name).contains n) = false := by
    intro n hn
    simp [alHasKey, alKeys] at hn
    subst hn
    decide
  refine ⟨?_, ?_, ?_, ?_⟩
  · exact (toolFrom_write_once ⟨[]⟩
      { name := "t", description := "", httpClientSet := true,
        parameters := [.mk "p1" "string" "" false [] none],
        invocationURL := "", authTokenSources := ["g"],
        boundParams := [("b1", BoundVal.scalar (.vstr "x"))],
        requiredAuthnParams := [], requiredAuthzTokens := [],
        clientHeaderSources := [] } hdisj "p1" (BoundVal.scalar (.vint 7))).1
      (by decide)
  · exact (toolFrom_write_once ⟨[]⟩
      { name := "t", description := "", httpClientSet := true,
        parameters := [.mk "p1" "string" "" false [] none],
        invocationURL := "", authTokenSources := ["g"],
        boundParams := [("b1", BoundVal.scalar (.vstr "x"))],
        requiredAuthnParams := [], requiredAuthzTokens := [],
        clientHeaderSources := [] } hdisj "b1" (BoundVal.scalar (.vint 7))).2.1
      (by decide)
  · exact (toolFrom_write_once ⟨[]⟩
      { name := "t", description := "", httpClientSet := true,
        parameters := [.mk "p1" "string" "" false [] none],
        invocationURL := "", authTokenSources := ["g"],
        boundParams := [("b1", BoundVal.scalar (.vstr "x"))],
        requiredAuthnParams := [], requiredAuthzTokens := [],
        clientHeaderSources := [] } hdisj "zz" (BoundVal.scalar (.vint 7))).2.2.1
      (by decide) (by decide)
  · exact (toolFrom_write_once ⟨[]⟩
      { name := "t", description := "", httpClientSet := true,
        parameters := [.mk "p1" "string" "" false [] none],
        invocationURL := "", authTokenSources := ["g"],
        boundParams := [("b1", BoundVal.scalar (.vstr "x"))],
        requiredAuthnParams := [], requiredAuthzTokens := [],
        clientHeaderSources := [] } hdisj "unused" (BoundVal.scalar (.vint 0))).2.2.2
      "g" (by decide)

/-! ## C5 : the Invoke permission gate -/

theorem mem_foldl_append (l : List (String × List String)) (acc : List String)
    (x : String) :
    x ∈ l.foldl (fun acc pr => acc ++ pr.2) acc ↔
      x ∈ acc ∨ ∃ pr ∈ l, x ∈ pr.2 := by
  induction l generalizing acc with
  | nil => simp
  | cons pr rest ih =>
    rw [List.foldl_cons, ih]
    simp only [List.mem_append, List.mem_cons]
    constructor
    · rintro (⟨h | h⟩ | ⟨pr2, hpr2, hx⟩)
      · exact Or.inl h
      · exact Or.inr ⟨pr, Or.inl rfl, h⟩
      · exact Or.inr ⟨pr2, Or.inr hpr2, hx⟩
    · rintro (h | ⟨pr2, rfl | hpr2, hx⟩)
      · exact Or.inl (Or.inl h)
      · exact Or.inl (Or.inr hx)
      · exact Or.inr ⟨pr2, hpr2, hx⟩

/-- C5: with an HTTP client set, whenever some outstanding authn or authz
service is not covered by the descriptor's auth token sources, `Invoke`
fails with a permission error naming a missing service, identically for
every caller input and before any payload validation; when every required
service is covered it never produces a permission error and proceeds to
payload validation, ending in a payload failure or an outgoing request. -/
theorem invoke_permission_gate (st : Store) (tt : ToolboxTool)
    (hclient : tt.httpClientSet = true) :
    ((∃ s ∈ requiredAuthServices tt, tt.authTokenSources.contains s = false) →
      ∃ s, s ∈ requiredAuthServices tt ∧
        tt.authTokenSources.contains s = false ∧
        ∀ input, Invoke st tt input = .errPermission s) ∧
    ((∀ s ∈ requiredAuthServices tt, tt.authTokenSources.contains s = true) →
      ∀ input,
        (∀ s, Invoke st tt input ≠ .errPermission s) ∧
        ((∃ e, Invoke st tt input = .errPayload e) ∨
          (∃ payload, Invoke st tt input = .request payload))) := by
  constructor
  · rintro ⟨s, hs, hmiss⟩
    have hcond : tt.requiredAuthnParams ≠ [] ∨ tt.requiredAuthzTokens ≠ [] := by
      unfold requiredAuthServices at hs
      rcases List.mem_append.mp hs with h | h
      · left
        rcases (mem_foldl_append tt.requiredAuthnParams [] s).mp h with
          h0 | ⟨pr, hpr, -⟩
        · cases h0
        · intro hne
          rw [hne] at hpr
          cases hpr
      · right
        intro hne
        rw [hne] at h
        cases h
    rcases hfind : (requiredAuthServices tt).find?
        (fun service => ! tt.authTokenSources.contains service) with _ | s0
    · exfalso
      rw [List.find?_eq_none] at hfind
      have h2 := hfind s hs
      rw [hmiss] at h2
      exact h2 rfl
    · have hp := List.find?_some hfind
      have hm := List.mem_of_find?_eq_some hfind
      refine ⟨s0, hm, by simpa using hp, ?_⟩
      intro input
      simp only [Invoke, hclient, not_true, if_false, if_pos hcond, hfind]
  · intro hall input
    have hfind : (requiredAuthServices tt).find?
        (fun service => ! tt.authTokenSources.contains service) = none := by
      rw [List.find?_eq_none]
      intro x hx
      rw [hall x hx]
      simp
    have hinv : Invoke st tt input =
        match validateAndBuildPayload st tt input with
        | .error e => .errPayload e
        | .ok payload => .request payload := by
      simp only [Invoke, hclient, not_true, if_false]
      by_cases hc : tt.requiredAuthnParams ≠ [] ∨ tt.requiredAuthzTokens ≠ []
      · rw [if_pos hc, hfind]
      · rw [if_neg hc]
    constructor
    · intro s hperm
      rw [hinv] at hperm
      rcases hpay : validateAndBuildPayload st tt input with e | payload
      · rw [hpay] at hperm
        cases hperm
      · rw [hpay] at hperm
        cases hperm
    · rcases hpay : validateAndBuildPayload st tt input with e | payload
      · left
        exact ⟨e, by rw [hinv, hpay]⟩
      · right
        exact ⟨payload, by rw [hinv, hpay]⟩

/-- Witness for C5: a descriptor requiring authz service `g` with no token
sources fails with a permission error on any input; after providing `g` it
reaches payload validation. -/
theorem invoke_permission_gate_witness :
    (∃ s, s ∈ requiredAuthServices
        { name := "t", description := "", parameters := [],
          invocationURL := "", httpClientSet := true, authTokenSources := [],
          boundParams := [], requiredAuthnParams := [],
          requiredAuthzTokens := ["g"], clientHeaderSources := [] } ∧
      ([] : List String).contains s = false ∧
      ∀ input, Invoke ⟨[]⟩
        { name := "t", description := "", parameters := [],
          invocationURL := "", httpClientSet := true, authTokenSources := [],
          boundParams := [], requiredAuthnParams := [],
          requiredAuthzTokens := ["g"], clientHeaderSources := [] } input =
        .errPermission s) ∧
    (∀ s, Invoke ⟨[]⟩
        { name := "t", description := "", parameters := [],
          invocationURL := "", httpClientSet := true,
          authTokenSources := ["g"], boundParams := [],
          requiredAuthnParams := [], requiredAuthzTokens := ["g"],
          clientHeaderSources := [] } [] ≠ .errPermission s) := by
  constructor
  · exact (invoke_permission_gate ⟨[]⟩
      { name := "t", description := "", parameters := [],
        invocationURL := "", httpClientSet := true, authTokenSources := [],
        boundParams := [], requiredAuthnParams := [],
        requiredAuthzTokens := ["g"], clientHeaderSources := [] } rfl).1
      ⟨"g", by simp [requiredAuthServices], by decide⟩
  · exact fun s => ((invoke_permission_gate ⟨[]⟩
      { name := "t", description := "", parameters := [],
        invocationURL := "", httpClientSet := true,
        authTokenSources := ["g"], boundParams := [],
        requiredAuthnParams := [], requiredAuthzTokens := ["g"],
        clientHeaderSources := [] } rfl).2
      (by intro s2 hs2; simp [requiredAuthServices] at hs2; simp [hs2]) []).1 s

/-! ## C10 : auth-gated schema parameters never consume bindings -/

theorem mem_alKeys_alSet_iff {α : Type} (l : List (String × α)) (k0 k : String)
    (v : α) : k ∈ alKeys (alSet l k0 v) ↔ k ∈ alKeys l ∨ k = k0 := by
  induction l with
  | nil =>
    simp [alSet, alKeys]
  | cons kv rest ih =>
    rcases kv with ⟨k1, v1⟩
    unfold alSet
    by_cases h : k1 = k0
    · rw [if_pos h]
      subst h
      simp only [alKeys, List.map_cons, List.mem_cons]
      tauto
    · rw [if_neg h]
      simp only [alKeys, List.map_cons, List.mem_cons]
      unfold alKeys at ih
      rw [ih]
      tauto

theorem triageParams_schema (config : ToolConfig) (params : List Parameter) :
    ∀ acc (k : String),
      k ∈ (triageParams config params acc).2.2.1 ↔
        k ∈ acc.2.2.1 ∨ ∃ p ∈ params, p.name = k := by
  induction params with
  | nil =>
    intro acc k
    simp [triageParams]
  | cons p rest ih =>
    intro acc k
    rcases acc with ⟨fp, an, ps, lb⟩
    simp only [triageParams]
    by_cases hauth : p.authSources ≠ []
    · rw [if_pos hauth]
      rw [ih]
      simp only [mem_insertUsed, List.mem_cons]
      constructor
      · rintro (⟨h | h⟩ | ⟨p2, hp2, hn⟩)
        · exact Or.inl h
        · exact Or.inr ⟨p, Or.inl rfl, h.symm⟩
        · exact Or.inr ⟨p2, Or.inr hp2, hn⟩
      · rintro (h | ⟨p2, rfl | hp2, hn⟩)
        · exact Or.inl (Or.inl h)
        · exact Or.inl (Or.inr hn.symm)
        · exact Or.inr ⟨p2, hp2, hn⟩
    · rw [if_neg hauth]
      have hsplit : ∀ lb2,
          (k ∈ (triageParams config rest (fp, an, insertUsed ps p.name, lb2)).2.2.1 ↔
            k ∈ insertUsed ps p.name ∨ ∃ p2 ∈ rest, p2.name = k) := by
        intro lb2
        exact ih (fp, an, insertUsed ps p.name, lb2) k
      have hsplit2 : ∀ fp2,
          (k ∈ (triageParams config rest (fp2, an, insertUsed ps p.name, lb)).2.2.1 ↔
            k ∈ insertUsed ps p.name ∨ ∃ p2 ∈ rest, p2.name = k) := by
        intro fp2
        exact ih (fp2, an, insertUsed ps p.name, lb) k
      have hfin : ∀ (res : Prop), (res ↔ k ∈ insertUsed ps p.name ∨
          ∃ p2 ∈ rest, p2.name = k) →
          (res ↔ k ∈ ps ∨ ∃ p2 ∈ p :: rest, p2.name = k) := by
        intro res hres
        rw [hres]
        simp only [mem_insertUsed, List.mem_cons]
        constructor
        · rintro (⟨h | h⟩ | ⟨p2, hp2, hn⟩)
          · exact Or.inl h
          · exact Or.inr ⟨p, Or.inl rfl, h.symm⟩
          · exact Or.inr ⟨p2, Or.inr hp2, hn⟩
        · rintro (h | ⟨p2, rfl | hp2, hn⟩)
          · exact Or.inl (Or.inl h)
          · exact Or.inl (Or.inr hn.symm)
          · exact Or.inr ⟨p2, hp2, hn⟩
      rcases hlook : (config.boundParams.lookup p.name : Option BoundVal) with
        _ | val
      · exact hfin _ (hsplit2 (fp ++ [p]))
      · exact hfin _ (hsplit (alSet lb p.name val))

theorem triageParams_localBound (config : ToolConfig) (params : List Parameter) :
    ∀ acc (k : String),
      k ∈ alKeys (triageParams config params acc).2.2.2 →
        k ∈ alKeys acc.2.2.2 ∨ ∃ p ∈ params, p.name = k ∧ p.authSources = [] := by
  induction params with
  | nil =>
    intro acc k h
    exact Or.inl h
  | cons p rest ih =>
    intro acc k h
    rcases acc with ⟨fp, an, ps, lb⟩
    simp only [triageParams] at h
    by_cases hauth : p.authSources ≠ []
    · rw [if_pos hauth] at h
      rcases ih _ k h with h2 | ⟨p2, hp2, hn, ha⟩
      · exact Or.inl h2
      · exact Or.inr ⟨p2, List.mem_cons_of_mem _ hp2, hn, ha⟩
    · rw [if_neg hauth] at h
      have hauth2 : p.authSources = [] := by
        by_contra hc
        exact hauth hc
      rcases hlook : (config.boundParams.lookup p.name : Option BoundVal) with
        _ | val
      · rw [hlook] at h
        rcases ih _ k h with h2 | ⟨p2, hp2, hn, ha⟩
        · exact Or.inl h2
        · exact Or.inr ⟨p2, List.mem_cons_of_mem _ hp2, hn, ha⟩
      · rw [hlook] at h
        rcases ih _ k h with h2 | ⟨p2, hp2, hn, ha⟩
        · rcases (mem_alKeys_alSet_iff lb p.name k val).mp h2 with h3 | rfl
          · exact Or.inl h3
          · exact Or.inr ⟨p, List.mem_cons_self _ _, rfl, hauth2⟩
        · exact Or.inr ⟨p2, List.mem_cons_of_mem _ hp2, hn, ha⟩

/-- C10: a schema parameter declaring a non-empty authSources list is
treated exclusively as auth-gated by the tool builder: a configured binding
for that name is never applied to the descriptor's bound parameters and is
not counted as consumed, so `LoadTool` (always strict about consumption)
fails with an unused-bound-parameters failure listing that name even though
the name exists on the tool's schema. -/
theorem authParam_binding_not_consumed (baseURL : String)
    (clientHeaderSources : List String) (name : String) (schema : ToolSchema)
    (config : ToolConfig) (k : String)
    (hk : k ∈ alKeys config.boundParams)
    (hgate : ∀ p ∈ schema.parameters, p.name = k → p.authSources ≠ [])
    (_hexists : ∃ p ∈ schema.parameters, p.name = k)
    (hall : ∀ k2 ∈ alKeys config.boundParams,
      ∃ p ∈ schema.parameters, p.name = k2) :
    (∃ tool ua ub,
      newToolboxTool baseURL clientHeaderSources name schema config true =
        .ok (tool, ua, ub) ∧
      alHasKey tool.boundParams k = false ∧ k ∉ ub) ∧
    (∃ ua2 ub2,
      loadToolValidation baseURL clientHeaderSources name schema config =
        .error (.toolValidationFailed name ua2 ub2) ∧ k ∈ ub2) := by
  have hfind : (alKeys config.boundParams).find?
      (fun k2 => ! (triageParams config schema.parameters
        ([], [], [], [])).2.2.1.contains k2) = none := by
    rw [List.find?_eq_none]
    intro x hx
    have hmem : x ∈ (triageParams config schema.parameters ([], [], [], [])).2.2.1 := by
      rw [triageParams_schema]
      exact Or.inr (hall x hx)
    have hc : (triageParams config schema.parameters ([], [], [], [])).2.2.1.contains x =
        true := List.elem_iff.mpr hmem
    rw [hc]
    simp
  have hnotlb : k ∉ alKeys
      (triageParams config schema.parameters ([], [], [], [])).2.2.2 := by
    intro hmem
    rcases triageParams_localBound config schema.parameters ([], [], [], []) k hmem
      with h0 | ⟨p, hp, hname, hempty⟩
    · simp [alKeys] at h0
    · exact hgate p hp hname hempty
  have hok : newToolboxTool baseURL clientHeaderSources name schema config true =
      .ok
        ({ name := name
           description := schema.description
           parameters := (triageParams config schema.parameters ([], [], [], [])).1
           invocationURL := baseURL ++ "/api/tool/" ++ name ++ "/invoke"
           httpClientSet := true
           authTokenSources := config.authTokenSources
           boundParams :=
             (triageParams config schema.parameters ([], [], [], [])).2.2.2
           requiredAuthnParams :=
             (identifyAuthRequirements
               (triageParams config schema.parameters ([], [], [], [])).2.1
               schema.authRequired config.authTokenSources).1
           requiredAuthzTokens :=
             (identifyAuthRequirements
               (triageParams config schema.parameters ([], [], [], [])).2.1
               schema.authRequired config.authTokenSources).2.1
           clientHeaderSources := clientHeaderSources },
          (identifyAuthRequirements
            (triageParams config schema.parameters ([], [], [], [])).2.1
            schema.authRequired config.authTokenSources).2.2,
          alKeys (triageParams config schema.parameters ([], [], [], [])).2.2.2) := by
    simp only [newToolboxTool, if_pos rfl, hfind]
    simp
  constructor
  · refine ⟨_, _, _, hok, ?_, hnotlb⟩
    unfold alHasKey
    rw [Bool.eq_false_iff]
    intro hc
    exact hnotlb (List.elem_iff.mp hc)
  · have hunused : k ∈ findUnusedKeys (alKeys config.boundParams)
        (alKeys (triageParams config schema.parameters ([], [], [], [])).2.2.2) := by
      unfold findUnusedKeys
      rw [List.mem_filter]
      refine ⟨hk, ?_⟩
      have hc : (alKeys
          (triageParams config schema.parameters ([], [], [], [])).2.2.2).contains k =
          false := by
        rw [Bool.eq_false_iff]
        intro hc2
        exact hnotlb (List.elem_iff.mp hc2)
      rw [hc]
      rfl
    refine ⟨findUnusedKeys config.authTokenSources
        (identifyAuthRequirements
          (triageParams config schema.parameters ([], [], [], [])).2.1
          schema.authRequired config.authTokenSources).2.2,
      findUnusedKeys (alKeys config.boundParams)
        (alKeys (triageParams config schema.parameters ([], [], [], [])).2.2.2),
      ?_, hunused⟩
    simp only [loadToolValidation, hok]
    rw [if_pos (Or.inr (List.ne_nil_of_mem hunused))]

/-- Witness for C10: a tool whose only parameter `p` is auth-gated by
service `google`, loaded with a binding for `p`, fails the strict LoadTool
validation with `p` among the unused bound parameters. -/
theorem authParam_binding_not_consumed_witness :
    ∃ ua2 ub2,
      loadToolValidation "http://base" [] "t"
        { description := "",
          parameters := [.mk "p" "string" "" false ["google"] none],
          authRequired := [] }
        { authTokenSources := [],
          boundParams := [("p", BoundVal.scalar (.vstr "x"))],
          name := "", strict := false, nameSet := false, strictSet := false } =
        .error (.toolValidationFailed "t" ua2 ub2) ∧ "p" ∈ ub2 :=
  (authParam_binding_not_consumed "http://base" [] "t"
    { description := "",
      parameters := [.mk "p" "string" "" false ["google"] none],
      authRequired := [] }
    { authTokenSources := [],
      boundParams := [("p", BoundVal.scalar (.vstr "x"))],
      name := "", strict := false, nameSet := false, strictSet := false }
    "p"
    (by simp [alKeys])
    (by
      intro p hp hn
      rw [List.mem_singleton] at hp
      subst hp
      simp [Parameter.authSources])
    ⟨.mk "p" "string" "" false ["google"] none, by simp, rfl⟩
    (by
      intro k2 hk2
      simp [alKeys] at hk2
      subst hk2
      exact ⟨.mk "p" "string" "" false ["google"] none, by simp, rfl⟩)).2

/-! ## C6 : strict versus lenient toolset validation -/

theorem mem_findUnusedKeys (provided used : List String) (k : String) :
    k ∈ findUnusedKeys provided used ↔ k ∈ provided ∧ k ∉ used := by
  unfold findUnusedKeys
  rw [List.mem_filter]
  constructor
  · rintro ⟨hp, hu⟩
    refine ⟨hp, ?_⟩
    intro hmem
    have hc : used.contains k = true := List.elem_iff.mpr hmem
    rw [hc] at hu
    cases hu
  · rintro ⟨hp, hu⟩
    refine ⟨hp, ?_⟩
    have hc : used.contains k = false := by
      rw [Bool.eq_false_iff]
      intro hc2
      exact hu (List.elem_iff.mp hc2)
    rw [hc]
    rfl

theorem findUnusedKeys_eq_nil (provided used : List String) :
    findUnusedKeys provided used = [] ↔ ∀ k ∈ provided, k ∈ used := by
  constructor
  · intro h k hk
    by_contra hc
    have : k ∈ findUnusedKeys provided used :=
      (mem_findUnusedKeys provided used k).mpr ⟨hk, hc⟩
    rw [h] at this
    cases this
  · intro h
    rcases hl : findUnusedKeys provided used with _ | ⟨k, rest⟩
    · rfl
    · exfalso
      have hk : k ∈ findUnusedKeys provided used := by
        rw [hl]
        exact List.mem_cons_self _ _
      rcases (mem_findUnusedKeys provided used k).mp hk with ⟨hp, hu⟩
      exact hu (h k hp)

theorem newToolboxTool_nonstrict_ok (baseURL : String) (ch : List String)
    (tname : String) (schema : ToolSchema) (config : ToolConfig) :
    ∃ t ua ub,
      newToolboxTool baseURL ch tname schema config false = .ok (t, ua, ub) := by
  simp only [newToolboxTool, Bool.false_eq_true, if_false]
  exact ⟨_, _, _, rfl⟩

theorem newToolboxTool_error_shape (baseURL : String) (ch : List String)
    (tname : String) (schema : ToolSchema) (config : ToolConfig)
    (isStrict : Bool) (e : ClientErr)
    (h : newToolboxTool baseURL ch tname schema config isStrict = .error e) :
    ∃ p, e = .unknownBoundParameter p tname := by
  simp only [newToolboxTool] at h
  rcases hsc : (if isStrict = true then
      (alKeys config.boundParams).find?
        (fun k => ! (triageParams config schema.parameters
          ([], [], [], [])).2.2.1.contains k)
    else none) with _ | p
  · rw [hsc] at h
    cases h
  · rw [hsc] at h
    exact ⟨p, ((Except.error.injEq _ _).mp h).symm⟩

theorem toolConsumes_of_ok (baseURL : String) (ch : List String)
    (config : ToolConfig) (tname : String) (schema : ToolSchema)
    (t : ToolboxTool) (ua ub : List String)
    (hok : newToolboxTool baseURL ch tname schema config false = .ok (t, ua, ub))
    (k : String) :
    (toolConsumesAuth baseURL ch config tname schema k ↔ k ∈ ua) ∧
    (toolConsumesBound baseURL ch config tname schema k ↔ k ∈ ub) := by
  constructor
  · constructor
    · rintro ⟨t2, ua2, ub2, hok2, hk⟩
      rw [hok] at hok2
      have := (Except.ok.injEq _ _).mp hok2
      rw [Prod.mk.injEq, Prod.mk.injEq] at this
      rw [← this.2.1] at hk
      exact hk
    · intro hk
      exact ⟨t, ua, ub, hok, hk⟩
  · constructor
    · rintro ⟨t2, ua2, ub2, hok2, hk⟩
      rw [hok] at hok2
      have := (Except.ok.injEq _ _).mp hok2
      rw [Prod.mk.injEq, Prod.mk.injEq] at this
      rw [← this.2.2] at hk
      exact hk
    · intro hk
      exact ⟨t, ua, ub, hok, hk⟩

theorem strictToolPasses_of_ok (baseURL : String) (ch : List String)
    (config : ToolConfig) (tname : String) (schema : ToolSchema)
    (t : ToolboxTool) (ua ub : List String)
    (hok : newToolboxTool baseURL ch tname schema config true = .ok (t, ua, ub)) :
    strictToolPasses baseURL ch config tname schema ↔
      (findUnusedKeys config.authTokenSources ua = [] ∧
        findUnusedKeys (alKeys config.boundParams) ub = []) := by
  constructor
  · rintro ⟨t2, ua2, ub2, hok2, hua, hub⟩
    rw [hok] at hok2
    have := (Except.ok.injEq _ _).mp hok2
    rw [Prod.mk.injEq, Prod.mk.injEq] at this
    rw [← this.2.1] at hua
    rw [← this.2.2] at hub
    exact ⟨hua, hub⟩
  · rintro ⟨hua, hub⟩
    exact ⟨t, ua, ub, hok, hua, hub⟩

theorem loadToolsetLoop_lenient (baseURL : String) (ch : List String)
    (config : ToolConfig) (hstrict : config.strict = false) :
    ∀ (rest : List (String × ToolSchema)) (tools : List ToolboxTool)
      (oa ob : List String),
      ∃ tools2 oa2 ob2,
        loadToolsetLoop baseURL ch config rest tools oa ob =
          .ok (tools2, oa2, ob2) ∧
        (∀ k, k ∈ oa2 ↔ k ∈ oa ∨
          ∃ ts ∈ rest, toolConsumesAuth baseURL ch config ts.1 ts.2 k) ∧
        (∀ k, k ∈ ob2 ↔ k ∈ ob ∨
          ∃ ts ∈ rest, toolConsumesBound baseURL ch config ts.1 ts.2 k) := by
  intro rest
  induction rest with
  | nil =>
    intro tools oa ob
    exact ⟨tools, oa, ob, rfl, fun k => by simp, fun k => by simp⟩
  | cons ts0 rest2 ih =>
    intro tools oa ob
    rcases ts0 with ⟨tname, schema⟩
    rcases newToolboxTool_nonstrict_ok baseURL ch tname schema config with
      ⟨t, ua, ub, hok⟩
    have hok2 : newToolboxTool baseURL ch tname schema config config.strict =
        .ok (t, ua, ub) := by
      rw [hstrict]
      exact hok
    simp only [loadToolsetLoop, hok2]
    rw [if_neg (by rw [hstrict]; simp)]
    rcases ih (tools ++ [t]) (ua.foldl insertUsed oa) (ub.foldl insertUsed ob)
      with ⟨tools2, oa2, ob2, hloop, hoa, hob⟩
    refine ⟨tools2, oa2, ob2, hloop, ?_, ?_⟩
    · intro k
      rw [hoa k, mem_foldl_insertUsed]
      have hbr := (toolConsumes_of_ok baseURL ch config tname schema t ua ub
        hok k).1
      constructor
      · rintro (⟨h | h⟩ | ⟨ts2, hts2, hc⟩)
        · exact Or.inl h
        · exact Or.inr ⟨(tname, schema), List.mem_cons_self _ _, hbr.mpr h⟩
        · exact Or.inr ⟨ts2, List.mem_cons_of_mem _ hts2, hc⟩
      · rintro (h | ⟨ts2, hts2, hc⟩)
        · exact Or.inl (Or.inl h)
        · rcases List.mem_cons.mp hts2 with rfl | hmem
          · exact Or.inl (Or.inr (hbr.mp hc))
          · exact Or.inr ⟨ts2, hmem, hc⟩
    · intro k
      rw [hob k, mem_foldl_insertUsed]
      have hbr := (toolConsumes_of_ok baseURL ch config tname schema t ua ub
        hok k).2
      constructor
      · rintro (⟨h | h⟩ | ⟨ts2, hts2, hc⟩)
        · exact Or.inl h
        · exact Or.inr ⟨(tname, schema), List.mem_cons_self _ _, hbr.mpr h⟩
        · exact Or.inr ⟨ts2, List.mem_cons_of_mem _ hts2, hc⟩
      · rintro (h | ⟨ts2, hts2, hc⟩)
        · exact Or.inl (Or.inl h)
        · rcases List.mem_cons.mp hts2 with rfl | hmem
          · exact Or.inl (Or.inr (hbr.mp hc))
          · exact Or.inr ⟨ts2, hmem, hc⟩

theorem loadToolsetLoop_strict_ok_iff (baseURL : String) (ch : List String)
    (config : ToolConfig) (hstrict : config.strict = true) :
    ∀ (rest : List (String × ToolSchema)) (tools : List ToolboxTool)
      (oa ob : List String),
      (∃ res, loadToolsetLoop baseURL ch config rest tools oa ob = .ok res) ↔
        ∀ ts ∈ rest, strictToolPasses baseURL ch config ts.1 ts.2 := by
  intro rest
  induction rest with
  | nil =>
    intro tools oa ob
    constructor
    · intro _ ts hts
      cases hts
    · intro _
      exact ⟨_, rfl⟩
  | cons ts0 rest2 ih =>
    intro tools oa ob
    rcases ts0 with ⟨tname, schema⟩
    rcases hok : newToolboxTool baseURL ch tname schema config true with
      e | ⟨t, ua, ub⟩
    · have hok2 : newToolboxTool baseURL ch tname schema config config.strict =
          .error e := by
        rw [hstrict]
        exact hok
      simp only [loadToolsetLoop, hok2]
      constructor
      · rintro ⟨res, hres⟩
        cases hres
      · intro hall
        exfalso
        rcases hall (tname, schema) (List.mem_cons_self _ _) with
          ⟨t2, ua2, ub2, hok2b, -, -⟩
        rw [hok] at hok2b
        cases hok2b
    · have hok2 : newToolboxTool baseURL ch tname schema config config.strict =
          .ok (t, ua, ub) := by
        rw [hstrict]
        exact hok
      simp only [loadToolsetLoop, hok2]
      rw [if_pos hstrict]
      have hiff := strictToolPasses_of_ok baseURL ch config tname schema
        t ua ub hok
      by_cases hun : findUnusedKeys config.authTokenSources ua ≠ [] ∨
          findUnusedKeys (alKeys config.boundParams) ub ≠ []
      · rw [if_pos hun]
        constructor
        · rintro ⟨res, hres⟩
          cases hres
        · intro hall
          exfalso
          rcases hiff.mp (hall (tname, schema) (List.mem_cons_self _ _)) with
            ⟨hua, hub⟩
          rcases hun with h | h
          · exact h hua
          · exact h hub
      · rw [if_neg hun]
        push_neg at hun
        rw [ih (tools ++ [t]) oa ob]
        constructor
        · intro hrest ts hts
          rcases List.mem_cons.mp hts with rfl | hmem
          · exact hiff.mpr hun
          · exact hrest ts hmem
        · intro hall ts hts
          exact hall ts (List.mem_cons_of_mem _ hts)

theorem loadToolsetLoop_strict_first_failure (baseURL : String)
    (ch : List String) (config : ToolConfig) (hstrict : config.strict = true) :
    ∀ (pre : List (String × ToolSchema)) (ts : String × ToolSchema)
      (post : List (String × ToolSchema)) (tools : List ToolboxTool)
      (oa ob : List String),
      (∀ ts2 ∈ pre, strictToolPasses baseURL ch config ts2.1 ts2.2) →
      ¬ strictToolPasses baseURL ch config ts.1 ts.2 →
      ∃ e, loadToolsetLoop baseURL ch config (pre ++ ts :: post) tools oa ob =
        .error e ∧ clientErrToolName e = ts.1 := by
  intro pre
  induction pre with
  | nil =>
    intro ts post tools oa ob hpre hfail
    rcases ts with ⟨tname, schema⟩
    rcases hok : newToolboxTool baseURL ch tname schema config true with
      e | ⟨t, ua, ub⟩
    · have hok2 : newToolboxTool baseURL ch tname schema config config.strict =
          .error e := by
        rw [hstrict]
        exact hok
      simp only [List.nil_append, loadToolsetLoop, hok2]
      rcases newToolboxTool_error_shape baseURL ch tname schema config true e
        hok with ⟨p, rfl⟩
      exact ⟨_, rfl, rfl⟩
    · have hok2 : newToolboxTool baseURL ch tname schema config config.strict =
          .ok (t, ua, ub) := by
        rw [hstrict]
        exact hok
      simp only [List.nil_append, loadToolsetLoop, hok2]
      rw [if_pos hstrict]
      have hiff := strictToolPasses_of_ok baseURL ch config tname schema
        t ua ub hok
      have hun : findUnusedKeys config.authTokenSources ua ≠ [] ∨
          findUnusedKeys (alKeys config.boundParams) ub ≠ [] := by
        by_contra hc
        push_neg at hc
        exact hfail (hiff.mpr hc)
      rw [if_pos hun]
      exact ⟨_, rfl, rfl⟩
  | cons ts0 pre2 ih =>
    intro ts post tools oa ob hpre hfail
    rcases ts0 with ⟨tname0, schema0⟩
    rcases hpre (tname0, schema0) (List.mem_cons_self _ _) with
      ⟨t, ua, ub, hok, hua, hub⟩
    have hok2 : newToolboxTool baseURL ch tname0 schema0 config config.strict =
        .ok (t, ua, ub) := by
      rw [hstrict]
      exact hok
    simp only [List.cons_append, loadToolsetLoop, hok2]
    rw [if_pos hstrict]
    rw [if_neg (by rw [hua, hub]; simp)]
    exact ih ts post (tools ++ [t]) oa ob
      (fun ts2 hts2 => hpre ts2 (List.mem_cons_of_mem _ hts2)) hfail

/-- C6: with the strict flag unset (the default), LoadToolset accumulates
key usage across tools and succeeds exactly when every supplied auth key
and bound-parameter key is consumed by at least one tool, failing otherwise
with one aggregated toolset failure listing exactly the keys consumed by no
tool; with the strict flag set, it succeeds exactly when each tool
individually passes the per-tool validation, and the first tool in
iteration order that fails aborts the whole call with a failure naming that
tool. -/
theorem loadToolset_strict_vs_lenient (baseURL : String) (ch : List String)
    (toolsetName : String) (manifestTools : List (String × ToolSchema))
    (config : ToolConfig) :
    (config.strict = false →
      ((∃ tools, loadToolsetValidation baseURL ch toolsetName manifestTools
          config = .ok tools) ↔
        (∀ k ∈ config.authTokenSources,
          ∃ ts ∈ manifestTools,
            toolConsumesAuth baseURL ch config ts.1 ts.2 k) ∧
        (∀ k ∈ alKeys config.boundParams,
          ∃ ts ∈ manifestTools,
            toolConsumesBound baseURL ch config ts.1 ts.2 k))) ∧
    (config.strict = false →
      ∀ e, loadToolsetValidation baseURL ch toolsetName manifestTools config =
          .error e →
        ∃ ua ub,
          e = .toolsetValidationFailed
            (if toolsetName = "" then "default" else toolsetName) ua ub ∧
          (∀ k, k ∈ ua ↔ k ∈ config.authTokenSources ∧
            ¬ ∃ ts ∈ manifestTools,
              toolConsumesAuth baseURL ch config ts.1 ts.2 k) ∧
          (∀ k, k ∈ ub ↔ k ∈ alKeys config.boundParams ∧
            ¬ ∃ ts ∈ manifestTools,
              toolConsumesBound baseURL ch config ts.1 ts.2 k)) ∧
    (config.strict = true →
      ((∃ tools, loadToolsetValidation baseURL ch toolsetName manifestTools
          config = .ok tools) ↔
        ∀ ts ∈ manifestTools, strictToolPasses baseURL ch config ts.1 ts.2)) ∧
    (config.strict = true →
      ∀ pre ts post, manifestTools = pre ++ ts :: post →
        (∀ ts2 ∈ pre, strictToolPasses baseURL ch config ts2.1 ts2.2) →
        ¬ strictToolPasses baseURL ch config ts.1 ts.2 →
        ∃ e, loadToolsetValidation baseURL ch toolsetName manifestTools
          config = .error e ∧ clientErrToolName e = ts.1) := by
  refine ⟨?_, ?_, ?_, ?_⟩
  · intro hstrict
    rcases loadToolsetLoop_lenient baseURL ch config hstrict manifestTools
      [] [] [] with ⟨tools2, oa2, ob2, hloop, hoa, hob⟩
    have hoa2 : ∀ k, k ∈ oa2 ↔
        ∃ ts ∈ manifestTools, toolConsumesAuth baseURL ch config ts.1 ts.2 k := by
      intro k
      rw [hoa k]
      simp only [List.not_mem_nil, false_or]
    have hob2 : ∀ k, k ∈ ob2 ↔
        ∃ ts ∈ manifestTools, toolConsumesBound baseURL ch config ts.1 ts.2 k := by
      intro k
      rw [hob k]
      simp only [List.not_mem_nil, false_or]
    simp only [loadToolsetValidation, hloop]
    rw [if_neg (by rw [hstrict]; simp)]
    by_cases hcase : findUnusedKeys config.authTokenSources oa2 ≠ [] ∨
        findUnusedKeys (alKeys config.boundParams) ob2 ≠ []
    · rw [if_pos hcase]
      constructor
      · rintro ⟨tools3, h⟩
        cases h
      · rintro ⟨hA, hB⟩
        exfalso
        have h1 : findUnusedKeys config.authTokenSources oa2 = [] :=
          (findUnusedKeys_eq_nil _ _).mpr
            (fun k hk => (hoa2 k).mpr (hA k hk))
        have h2 : findUnusedKeys (alKeys config.boundParams) ob2 = [] :=
          (findUnusedKeys_eq_nil _ _).mpr
            (fun k hk => (hob2 k).mpr (hB k hk))
        rcases hcase with h | h
        · exact h h1
        · exact h h2
    · rw [if_neg hcase]
      push_neg at hcase
      constructor
      · intro _
        refine ⟨?_, ?_⟩
        · intro k hk
          exact (hoa2 k).mp ((findUnusedKeys_eq_nil _ _).mp hcase.1 k hk)
        · intro k hk
          exact (hob2 k).mp ((findUnusedKeys_eq_nil _ _).mp hcase.2 k hk)
      · intro _
        exact ⟨tools2, rfl⟩
  · intro hstrict e herr
    rcases loadToolsetLoop_lenient baseURL ch config hstrict manifestTools
      [] [] [] with ⟨tools2, oa2, ob2, hloop, hoa, hob⟩
    have hoa2 : ∀ k, k ∈ oa2 ↔
        ∃ ts ∈ manifestTools, toolConsumesAuth baseURL ch config ts.1 ts.2 k := by
      intro k
      rw [hoa k]
      simp only [List.not_mem_nil, false_or]
    have hob2 : ∀ k, k ∈ ob2 ↔
        ∃ ts ∈ manifestTools, toolConsumesBound baseURL ch config ts.1 ts.2 k := by
      intro k
      rw [hob k]
      simp only [List.not_mem_nil, false_or]
    simp only [loadToolsetValidation, hloop] at herr
    rw [if_neg (by rw [hstrict]; simp)] at herr
    by_cases hcase : findUnusedKeys config.authTokenSources oa2 ≠ [] ∨
        findUnusedKeys (alKeys config.boundParams) ob2 ≠ []
    · rw [if_pos hcase] at herr
      refine ⟨findUnusedKeys config.authTokenSources oa2,
        findUnusedKeys (alKeys config.boundParams) ob2,
        ((Except.error.injEq _ _).mp herr).symm, ?_, ?_⟩
      · intro k
        rw [mem_findUnusedKeys]
        constructor
        · rintro ⟨h1, h2⟩
          exact ⟨h1, fun hc => h2 ((hoa2 k).mpr hc)⟩
        · rintro ⟨h1, h2⟩
          exact ⟨h1, fun hc => h2 ((hoa2 k).mp hc)⟩
      · intro k
        rw [mem_findUnusedKeys]
        constructor
        · rintro ⟨h1, h2⟩
          exact ⟨h1, fun hc => h2 ((hob2 k).mpr hc)⟩
        · rintro ⟨h1, h2⟩
          exact ⟨h1, fun hc => h2 ((hob2 k).mp hc)⟩
    · rw [if_neg hcase] at herr
      cases herr
  · intro hstrict
    constructor
    · rintro ⟨tools3, hval⟩
      rcases hloop : loadToolsetLoop baseURL ch config manifestTools [] [] []
        with e | ⟨tools2, oa2, ob2⟩
      · simp only [loadToolsetValidation, hloop] at hval
        cases hval
      · exact (loadToolsetLoop_strict_ok_iff baseURL ch config hstrict
          manifestTools [] [] []).mp ⟨_, hloop⟩
    · intro hall
      rcases (loadToolsetLoop_strict_ok_iff baseURL ch config hstrict
        manifestTools [] [] []).mpr hall with ⟨res, hloop⟩
      rcases res with ⟨tools2, oa2, ob2⟩
      refine ⟨tools2, ?_⟩
      simp only [loadToolsetValidation, hloop]
      rw [if_pos hstrict]
  · intro hstrict pre ts post hsplit hpre hfail
    rcases loadToolsetLoop_strict_first_failure baseURL ch config hstrict
      pre ts post [] [] [] hpre hfail with ⟨e, hloope, hname⟩
    refine ⟨e, ?_, hname⟩
    rw [hsplit]
    simp only [loadToolsetValidation, hloope]

/-- Witness for C6: a toolset where tool A has parameter `p1` and tool B has
none, loaded with a binding for `p1`: lenient mode succeeds (A consumes the
key), strict mode aborts naming tool B. -/
theorem loadToolset_strict_vs_lenient_witness :
    (∃ tools, loadToolsetValidation "b" [] ""
      [("A", { description := "",
               parameters := [.mk "p1" "string" "" false [] none],
               authRequired := [] }),
       ("B", { description := "", parameters := [], authRequired := [] })]
      { authTokenSources := [],
        boundParams := [("p1", BoundVal.scalar (.vstr "v"))],
        name := "", strict := false, nameSet := false, strictSet := false } =
      .ok tools) ∧
    (∃ e, loadToolsetValidation "b" [] ""
      [("A", { description := "",
               parameters := [.mk "p1" "string" "" false [] none],
               authRequired := [] }),
       ("B", { description := "", parameters := [], authRequired := [] })]
      { authTokenSources := [],
        boundParams := [("p1", BoundVal.scalar (.vstr "v"))],
        name := "", strict := true, nameSet := false, strictSet := false } =
      .error e ∧ clientErrToolName e = "B") := by
  constructor
  · refine ((loadToolset_strict_vs_lenient "b" [] ""
      [("A", { description := "",
               parameters := [.mk "p1" "string" "" false [] none],
               authRequired := [] }),
       ("B", { description := "", parameters := [], authRequired := [] })]
      { authTokenSources := [],
        boundParams := [("p1", BoundVal.scalar (.vstr "v"))],
        name := "", strict := false, nameSet := false,
        strictSet := false }).1 rfl).mpr ⟨?_, ?_⟩
    · intro k hk
      cases hk
    · intro k hk
      simp only [alKeys, List.map_cons, List.map_nil, List.mem_singleton] at hk
      subst hk
      refine ⟨("A",
          { description := "",
            parameters := [.mk "p1" "string" "" false [] none],
            authRequired := [] }),
        List.mem_cons_self _ _, ?_⟩
      exact ⟨_, _, _, rfl, by decide⟩
  · refine (loadToolset_strict_vs_lenient "b" [] ""
      [("A", { description := "",
               parameters := [.mk "p1" "string" "" false [] none],
               authRequired := [] }),
       ("B", { description := "", parameters := [], authRequired := [] })]
      { authTokenSources := [],
        boundParams := [("p1", BoundVal.scalar (.vstr "v"))],
        name := "", strict := true, nameSet := false,
        strictSet := false }).2.2.2 rfl
      [("A", { description := "",
               parameters := [.mk "p1" "string" "" false [] none],
               authRequired := [] })]
      ("B", { description := "", parameters := [], authRequired := [] })
      [] rfl ?_ ?_
    · intro ts2 hts2
      rw [List.mem_singleton] at hts2
      subst hts2
      exact ⟨_, _, _, rfl, by decide, by decide⟩
    · rintro ⟨t, ua, ub, hok, -, -⟩
      rw [show newToolboxTool "b" [] "B"
          { description := "", parameters := [], authRequired := [] }
          { authTokenSources := [],
            boundParams := [("p1", BoundVal.scalar (.vstr "v"))],
            name := "", strict := true, nameSet := false, strictSet := false }
          true = .error (.unknownBoundParameter "p1" "B") from rfl] at hok
      cases hok
